import Mathlib

/-!
# Font resolution, text shaping and glyph fallback of `crispy::text`

A shallow embedding of `crispy/text/TextShaper.cpp`, `crispy/text/FontLoader.cpp`,
`crispy/text/Font.h` and `crispy/FNV.h`, with the properties of the
font-resolution and text-shaping pipeline proved about it.

Conventions of the embedding.

* `std::vector` is a `List`; an index loop `for (i : times(n))` is a fold over
  `List.range n` that reads and writes by index.
* A `Font&` / `Font*` is a value of an abstract type `F` of font identities
  (addresses); the shaper only compares them and hands them to the engines.
* HarfBuzz and FreeType are external collaborators; they are parameters
  (`Engine`, `FreeType`), deterministic functions of their arguments.
* `std::string` is a `String`; comparing the last bytes of a string with an ASCII
  suffix is comparing its last characters, since a byte of a multi-byte sequence is
  never an ASCII byte. For hashing, a string is the list of its bytes.
* `int` and `unsigned` are 32 bits wide. The arithmetic of the shaper on `int`
  (`wrapInt`), the conversions between `unsigned` and `int`, and `unsigned`
  arithmetic wrap modulo `2^32` explicitly, as the two's-complement targets
  compute them.
-/

namespace crispy

/-! ## The FNV hash (`FNV.h`) -/

/-- Conversion of an `int` to `unsigned`. -/
def toUnsigned (i : Int) : Nat := (i % 2 ^ 32).toNat

/-- The value of a plain `char` whose object representation is the byte `b`. Whether
plain `char` is signed is fixed by the ABI: it is on x86 and x86-64 (Linux, macOS,
Windows), there a byte `0x80..0xFF` is a negative `char`. -/
def charValue (charIsSigned : Bool) (b : Fin 256) : Int :=
  if charIsSigned = true ∧ 128 ≤ b.val then (b.val : Int) - 256 else (b.val : Int)

/-- The class template `FNV<char>`: its two `unsigned const` members. -/
structure FNV where
  basis_ : Nat
  prime_ : Nat
  deriving DecidableEq, Repr

namespace FNV

/-- The default constructor `FNV()` (FNV.h:17). -/
def new : FNV := { basis_ := 2166136261 % 2 ^ 32, prime_ := 16777619 % 2 ^ 32 }

/-- The overload `operator()(unsigned _memory, T _value)` (FNV.h:22): in
`_memory ^= _value` the `char` is promoted to `int` and converted to `unsigned`. -/
def applyValue (self : FNV) (charIsSigned : Bool) (_memory : Nat) (_value : Fin 256) : Nat :=
  let memory1 := _memory ^^^ toUnsigned (charValue charIsSigned _value)
  (memory1 * self.prime_) % 2 ^ 32

/-- The overload `operator()(T const* _begin, T const* _end)` (FNV.h:38) over the
characters between the two pointers. -/
def applyRange (self : FNV) (charIsSigned : Bool) (chars : List (Fin 256)) : Nat :=
  chars.foldl (fun memory ch => self.applyValue charIsSigned memory ch) self.basis_

/-- The overload `operator()(std::basic_string<T> const& _str)` (FNV.h:53). -/
def applyString (self : FNV) (charIsSigned : Bool) (_str : List (Fin 256)) : Nat :=
  self.applyRange charIsSigned _str

end FNV

/-- The FNV-1a hash over 32 bits as the documentation the class refers to defines it:
from the offset basis, xor in each octet `0..255`, then multiply by the prime. -/
def fnv1a (octets : List (Fin 256)) : Nat :=
  octets.foldl (fun h b => ((h ^^^ b.val) * 16777619) % 2 ^ 32) 2166136261

/-- The bytes of a string (UTF-8). -/
def stringBytes (s : String) : List (Fin 256) :=
  (s.data.flatMap String.utf8EncodeChar).map (fun b => b.val)

/-! ## Character sequences and their hashes (`Font.h`) -/

/-- The struct `Codepoint` (Font.h:42): a `char32_t` value and its cluster index. -/
structure Codepoint where
  value : Nat
  cluster : Int
  deriving DecidableEq, Repr, Inhabited

/-- The vector type `CharSequence` of `char32_t`. -/
abbrev CharSequence := List Nat

/-- The vector type `CodepointSequence`. -/
abbrev CodepointSequence := List Codepoint

/-- The operator `==` on two `CodepointSequence`s (Font.h:48). -/
def codepointSequenceEq (a b : CodepointSequence) : Bool :=
  if a.length ≠ b.length then
    false
  else
    (List.range a.length).all
      (fun i => (a.getD i default).value == (b.getD i default).value)

/-- The operator `==` on a `CharSequence` and a `CodepointSequence` (Font.h:60). -/
def charSequenceEq (a : CharSequence) (b : CodepointSequence) : Bool :=
  if a.length ≠ b.length then
    false
  else
    (List.range a.length).all (fun i => a.getD i default == (b.getD i default).value)

/-- The operator `==` on a `CodepointSequence` and a `CharSequence` (Font.h:71). -/
def codepointCharSequenceEq (a : CodepointSequence) (b : CharSequence) : Bool :=
  charSequenceEq b a

/-- The specialisation `std::hash<crispy::CharSequence>` (Font.h:78); `h` is an
`unsigned long long`, as wide as the `std::size_t` returned. -/
def hash_CharSequence (seq : CharSequence) : Nat :=
  if !seq.isEmpty then
    seq.foldl (fun h ch => ((h ^^^ ch) * 16777619) % 2 ^ 64) 2166136261
  else
    0

/-- The specialisation `std::hash<crispy::CodepointSequence>` (Font.h:101). -/
def hash_CodepointSequence (seq : CodepointSequence) : Nat :=
  if !seq.isEmpty then
    seq.foldl (fun h ch => ((h ^^^ ch.value) * 16777619) % 2 ^ 64) 2166136261
  else
    0

namespace text

/-! ## Data model (`Font.h`) -/

/-- The record `GlyphPosition` of `Font.h`; `F` is the type of font references. -/
structure GlyphPosition (F : Type) where
  font : F
  x : Int
  y : Int
  glyphIndex : Nat
  cluster : Int
  deriving DecidableEq, Repr

/-- The vector type `GlyphPositionList`. -/
abbrev GlyphPositionList (F : Type) := List (GlyphPosition F)

/-- The pair type `FontList`: the primary font and the fallback fonts. -/
abbrev FontList (F : Type) := F × List F

/-- The predicate `glyphMissing` (TextShaper.cpp:35): the glyph index is the sentinel `0`. -/
def glyphMissing {F : Type} (_gp : GlyphPosition F) : Bool :=
  _gp.glyphIndex == 0

/-! ## The shaping engine -/

/-- The values of `unicode::Script` that `mapScriptToHarfbuzzScript` tells apart;
every other script is `Other`. -/
inductive Script where
  | Latin
  | Greek
  | Common
  | Other (code : Nat)
  deriving DecidableEq, Repr

/-- The values of `hb_script_t` that the shaper passes on. -/
inductive hb_script_t where
  | HB_SCRIPT_LATIN
  | HB_SCRIPT_GREEK
  | HB_SCRIPT_COMMON
  | HB_SCRIPT_INVALID
  deriving DecidableEq, Repr

/-- The function `mapScriptToHarfbuzzScript` (TextShaper.cpp:100). -/
def mapScriptToHarfbuzzScript : Script → hb_script_t
  | Script.Latin => hb_script_t.HB_SCRIPT_LATIN
  | Script.Greek => hb_script_t.HB_SCRIPT_GREEK
  | Script.Common => hb_script_t.HB_SCRIPT_COMMON
  | Script.Other _ => hb_script_t.HB_SCRIPT_INVALID

/-- The contents of the HarfBuzz buffer before shaping: the `(codepoint, cluster)`
items added with `hb_buffer_add` and the script hint; content type, direction (LTR)
and language (default) are the same constants on every call. -/
structure HbBuffer where
  items : List (Nat × Nat)
  script : hb_script_t
  deriving DecidableEq, Repr

/-- One glyph of the shaped buffer: `hb_glyph_info_t` (`codepoint` holds the glyph
id, `cluster` is a `uint32_t`) with its `hb_glyph_position_t` offsets in 1/64 pixel. -/
structure HbGlyph where
  codepoint : Nat
  cluster : Nat
  x_offset : Int
  y_offset : Int
  deriving DecidableEq, Repr

/-- The external engines the shaper calls. `hb_shape` stands for `hb_shape` followed
by `hb_buffer_normalize_glyphs` and the read-out of infos and positions. An engine
describes the collaborators for the fonts as they are at the time of the call: after a
font was modified in place (resized), the calls go to another engine, while the font
objects in `hb_fonts_` are those created before. -/
structure Engine (F H : Type) where
  hb_ft_font_create_referenced : F → H
  hb_shape : H → HbBuffer → List HbGlyph
  FT_Get_Char_Index : F → Nat → Nat

/-- The conversion `static_cast<int>` of a `uint32_t` (two's complement). -/
def static_cast_int (u : Nat) : Int :=
  if u % 2 ^ 32 < 2 ^ 31 then ((u % 2 ^ 32 : Nat) : Int) else ((u % 2 ^ 32 : Nat) : Int) - 2 ^ 32

/-- The value of an `int` expression whose mathematical result is `i`: the result
reduced modulo `2^32` into `[-2^31, 2^31)`, as 32-bit two's-complement arithmetic
yields it. -/
def wrapInt (i : Int) : Int := (i + 2 ^ 31) % 2 ^ 32 - 2 ^ 31

/-! ## `TextShaper` -/

/-- The state of a `TextShaper`: the map `hb_fonts_` from font address to its
HarfBuzz font object, and, as a probe on the collaborator, the fonts `hb_shape`
has been invoked for, in call order. -/
structure TextShaper (F H : Type) where
  hb_fonts_ : List (F × H)
  shapeCalls : List F

namespace TextShaper

variable {F H : Type} [DecidableEq F]

/-- The lookup `hb_fonts_.find(&_font)`. -/
def find (self : TextShaper F H) (_font : F) : Option H :=
  (self.hb_fonts_.find? (fun e => decide (e.1 = _font))).map Prod.snd

/-- The method `clearCache` (TextShaper.cpp:92). -/
def clearCache (self : TextShaper F H) : TextShaper F H :=
  { self with hb_fonts_ := [] }

/-- The buffer filled by TextShaper.cpp:126-135. -/
def fillBuffer (_size : Nat) (_codepoints : List Nat) (_clusters : List Int)
    (_clusterGap : Int) (_script : Script) : HbBuffer :=
  { items := (List.range _size).map
      (fun i => (_codepoints.getD i 0, toUnsigned (_clusters.getD i 0 + _clusterGap)))
    script := mapScriptToHarfbuzzScript _script }

/-- The read-out loop of TextShaper.cpp:157-172 over the first `glyphCount` glyphs.
The offsets are signed (`hb_position_t`), `>> 6` on them is the arithmetic shift; the
product and the sums are computed in `int`. -/
def emplaceGlyphs (_font : F) (_advanceX : Int) (glyphs : List HbGlyph) (glyphCount : Nat)
    (_result : GlyphPositionList F) : GlyphPositionList F :=
  (List.range glyphCount).foldl
    (fun res i =>
      match glyphs.get? i with
      | some g =>
        let cx := wrapInt (static_cast_int g.cluster * _advanceX)
        let cy : Int := 0
        res ++ [{ font := _font
                  x := wrapInt (cx + (g.x_offset >>> (6 : Nat)))
                  y := wrapInt (cy + (g.y_offset >>> (6 : Nat)))
                  glyphIndex := g.codepoint
                  cluster := static_cast_int g.cluster }]
      | none => res)
    _result

/-- The per-font attempt, the private overload of `TextShaper::shape`
(TextShaper.cpp:117). `_result` is the list passed by reference; the returned
triple is the return value, the list afterwards and the shaper afterwards. -/
def shapeFont (E : Engine F H) (self : TextShaper F H) (_size : Nat) (_codepoints : List Nat)
    (_clusters : List Int) (_clusterGap : Int) (_script : Script) (_font : F)
    (_advanceX : Int) (_result : GlyphPositionList F) :
    Bool × GlyphPositionList F × TextShaper F H :=
  let buf := fillBuffer _size _codepoints _clusters _clusterGap _script
  let (hb_font, fonts) :=
    match self.find _font with
    | some h => (h, self.hb_fonts_)
    | none =>
      let h := E.hb_ft_font_create_referenced _font
      (h, self.hb_fonts_ ++ [(_font, h)])
  let glyphs := E.hb_shape hb_font buf
  let self1 : TextShaper F H :=
    { hb_fonts_ := fonts, shapeCalls := self.shapeCalls ++ [_font] }
  let glyphCount := glyphs.length
  let cleared : GlyphPositionList F := _result.take 0 -- _result.get().clear()
  let res := emplaceGlyphs _font _advanceX glyphs glyphCount cleared
  (!(res.any glyphMissing), res, self1)

/-- The method `replaceMissingGlyphs` (TextShaper.cpp:196). -/
def replaceMissingGlyphs (E : Engine F H) (_font : F) (_result : GlyphPositionList F) :
    GlyphPositionList F :=
  let missingGlyphId := 0xFFFD
  let missingGlyph := E.FT_Get_Char_Index _font missingGlyphId
  if missingGlyph ≠ 0 then
    (List.range _result.length).foldl
      (fun res i =>
        match res.get? i with
        | some gp => if glyphMissing gp then res.set i { gp with glyphIndex := missingGlyph } else res
        | none => res)
      _result
  else
    _result

/-- The loop over the fallback fonts (TextShaper.cpp:71-73): `some` is the early
return, `none` the fall-through with the list left by the last attempt. -/
def shapeFallbacks (E : Engine F H) (_size : Nat) (_codepoints : List Nat)
    (_clusters : List Int) (_clusterGap : Int) (_script : Script) (_advanceX : Int) :
    List F → TextShaper F H → GlyphPositionList F →
      Option (GlyphPositionList F) × GlyphPositionList F × TextShaper F H
  | [], self, glyphPositions => (none, glyphPositions, self)
  | fallback :: rest, self, glyphPositions =>
    match shapeFont E self _size _codepoints _clusters _clusterGap _script fallback _advanceX
        glyphPositions with
    | (true, gp, self1) => (some gp, gp, self1)
    | (false, gp, self1) =>
      shapeFallbacks E _size _codepoints _clusters _clusterGap _script _advanceX rest self1 gp

/-- The public method `TextShaper::shape` (TextShaper.cpp:56). -/
def shape (E : Engine F H) (self : TextShaper F H) (_script : Script) (_fonts : FontList F)
    (_advanceX : Int) (_size : Nat) (_codepoints : List Nat) (_clusters : List Int)
    (_clusterGap : Int) : GlyphPositionList F × TextShaper F H :=
  let glyphPositions : GlyphPositionList F := []
  match shapeFont E self _size _codepoints _clusters _clusterGap _script _fonts.1 _advanceX
      glyphPositions with
  | (true, gp, self1) => (gp, self1)
  | (false, gp, self1) =>
    match shapeFallbacks E _size _codepoints _clusters _clusterGap _script _advanceX
        _fonts.2 self1 gp with
    | (some gp2, _, self2) => (gp2, self2)
    | (none, gp2, self2) =>
      match shapeFont E self2 _size _codepoints _clusters _clusterGap _script _fonts.1
          _advanceX gp2 with
      | (_, gp3, self3) => (replaceMissingGlyphs E _fonts.1 gp3, self3)

end TextShaper

/-! ## Auxiliary definitions for the statements about the shaper -/

section ShaperDefs

variable {F H : Type}

/-- The glyph position the read-out loop builds from one engine glyph. -/
def renderGlyph (_font : F) (_advanceX : Int) (g : HbGlyph) : GlyphPosition F :=
  { font := _font
    x := wrapInt (wrapInt (static_cast_int g.cluster * _advanceX)
      + (g.x_offset >>> (6 : Nat)))
    y := wrapInt (0 + (g.y_offset >>> (6 : Nat)))
    glyphIndex := g.codepoint
    cluster := static_cast_int g.cluster }

/-- The substitution `replaceMissingGlyphs` applies to one entry when the replacement
glyph index is `r`. -/
def substituteGlyph (r : Nat) (gp : GlyphPosition F) : GlyphPosition F :=
  if glyphMissing gp then { gp with glyphIndex := r } else gp

/-- The HarfBuzz font object an attempt on `_font` shapes with in state `self`: the
cached object when there is one, a newly created one otherwise (TextShaper.cpp:137-144). -/
def contextOf [DecidableEq F] (E : Engine F H) (self : TextShaper F H) (_font : F) : H :=
  match self.find _font with
  | some h => h
  | none => E.hb_ft_font_create_referenced _font

/-- The glyphs the engine reports for an attempt on `_font` in state `self`. -/
def engineGlyphs [DecidableEq F] (E : Engine F H) (self : TextShaper F H) (_size : Nat)
    (_codepoints : List Nat) (_clusters : List Int) (_clusterGap : Int) (_script : Script)
    (_font : F) : List HbGlyph :=
  E.hb_shape (contextOf E self _font)
    (TextShaper.fillBuffer _size _codepoints _clusters _clusterGap _script)

/-- The list one per-font attempt on `_font` leaves in `_result`, started in state `self`. -/
def attemptOutput [DecidableEq F] (E : Engine F H) (self : TextShaper F H) (_size : Nat)
    (_codepoints : List Nat) (_clusters : List Int) (_clusterGap : Int) (_script : Script)
    (_advanceX : Int) (_font : F) : GlyphPositionList F :=
  (TextShaper.shapeFont E self _size _codepoints _clusters _clusterGap _script _font
    _advanceX []).2.1

end ShaperDefs

/-! ## Concrete engines for the worked instances -/

/-- An engine over fonts `0, 1, 2, ...`: font `1` lacks the glyph, every other font
has glyph `7`, reported at cluster `2` with offsets `(-1, 64)`; only font `1` lacks
the replacement character. -/
def sampleEngine : Engine Nat Nat where
  hb_ft_font_create_referenced := fun f => f
  hb_shape := fun h _ => if h = 1 then [⟨0, 2, -1, 64⟩] else [⟨7, 2, -1, 64⟩]
  FT_Get_Char_Index := fun f _ => if f = 1 then 0 else 3

/-- An engine in which no font has any glyph but font `0` has the replacement glyph `3`. -/
def blankEngine : Engine Nat Nat where
  hb_ft_font_create_referenced := fun f => f
  hb_shape := fun _ _ => [⟨0, 0, 0, 0⟩, ⟨0, 1, 0, 0⟩]
  FT_Get_Char_Index := fun f _ => if f = 0 then 3 else 0

/-- An engine that reports two glyphs at large cluster words: `300000000`, whose
product with an advance of `10` exceeds `2^31`, and `4294967295`, which is `-1` as an
`int`. -/
def wideEngine : Engine Nat Nat where
  hb_ft_font_create_referenced := fun f => f
  hb_shape := fun _ _ => [⟨7, 300000000, 0, 0⟩, ⟨7, 4294967295, 0, 0⟩]
  FT_Get_Char_Index := fun _ _ => 3

/-- A shaper that has not shaped anything yet. -/
def freshShaper : TextShaper Nat Nat := { hb_fonts_ := [], shapeCalls := [] }

/-! ## Fonts and the font loader (`Font.h`, `FontLoader.cpp`) -/

/-- The loop `for (i = k; i < k + n; ++i) state = body(state, l[i])` over a vector. -/
def indexLoop {α σ : Type} (l : List α) (k n : Nat) (body : σ → α → σ) (state : σ) : σ :=
  (List.range' k n).foldl
    (fun a i =>
      match l.get? i with
      | some x => body a x
      | none => a)
    state

/-- The FreeType library as `Font` and `FontLoader` use it. `loadFace` is the static
`Font::loadFace(ft_, path, size)`: the opened face, or `none` for the null pointer when
the file cannot be opened; `metrics` gives bitmap width, bitmap height and maximal
advance of a face at a pixel size. -/
structure FreeType where
  loadFace : String → Int → Option Nat
  metrics : Nat → Int → Int × Int × Int

/-- The data members of class `Font` (Font.h:212-222). -/
structure Font where
  face_ : Nat
  fontSize_ : Int
  bitmapWidth_ : Int
  bitmapHeight_ : Int
  maxAdvance_ : Int
  filePath_ : String
  hashCode_ : Nat
  deriving DecidableEq, Repr

namespace Font

/-- Modelled from the spec: the constructor `Font::Font(ft, face, fontSize, fontPath)`,
defined in Font.cpp, which is not among the sources. A font handle has its file path
as identity, the pixel size it was opened at, bitmap width and height and maximal
advance derived from the size, and a hash computed once from the file path bytes
(FNV-1a). -/
def create (ft : FreeType) (_face : Nat) (_fontSize : Int) (_fontPath : String) : Font :=
  { face_ := _face
    fontSize_ := _fontSize
    bitmapWidth_ := (ft.metrics _face _fontSize).1
    bitmapHeight_ := (ft.metrics _face _fontSize).2.1
    maxAdvance_ := (ft.metrics _face _fontSize).2.2
    filePath_ := _fontPath
    hashCode_ := fnv1a (stringBytes _fontPath) }

/-- Modelled from the spec: `Font::setFontSize`, defined in Font.cpp, which is not among
the sources. It re-derives bitmap width, bitmap height and maximal advance for the
new pixel size, the handle then reports the new size, and the hash is stable
regardless of size changes. -/
def setFontSize (ft : FreeType) (self : Font) (_fontSize : Int) : Font :=
  { self with
    fontSize_ := _fontSize
    bitmapWidth_ := (ft.metrics self.face_ _fontSize).1
    bitmapHeight_ := (ft.metrics self.face_ _fontSize).2.1
    maxAdvance_ := (ft.metrics self.face_ _fontSize).2.2 }

/-- The accessor `fontSize()`. -/
def fontSize (self : Font) : Int := self.fontSize_

/-- The accessor `filePath()`. -/
def filePath (self : Font) : String := self.filePath_

/-- The accessor `hashCode()`. -/
def hashCode (self : Font) : Nat := self.hashCode_

end Font

/-- The function `tolower` of the C library in the "C" locale. -/
def tolower (c : Char) : Char := c.toLower

/-- The function `endsWithIgnoreCase` (FontLoader.cpp:37). -/
def endsWithIgnoreCase (_text _suffix : String) : Bool :=
  if _text.length < _suffix.length then
    false
  else
    let text := _text.data.drop (_text.length - _suffix.length)
    (List.range _suffix.length).all
      (fun i => tolower (text.getD i default) == tolower (_suffix.data.getD i default))

/-- The function `getFontFilePaths` (FontLoader.cpp:50). `platformMatcher` is the list
the platform branch computes from the pattern: the files of the fonts `FcFontSort`
returns (fontconfig), or the one hard-coded path (Windows). -/
def getFontFilePaths (platformMatcher : String → List String) (_fontPattern : String) :
    List String :=
  if endsWithIgnoreCase _fontPattern ".ttf" || endsWithIgnoreCase _fontPattern ".otf" then
    [_fontPattern]
  else
    platformMatcher _fontPattern

/-- A `Font*` or `Font&` into the map `fonts_`: a node of an `unordered_map` never
moves and there is one node per key, so the address is represented by the key. -/
abbrev FontRef := String

/-- How a call ends: it returns a value, it throws a `std::runtime_error`, or its
behaviour is undefined. -/
inductive Outcome (α : Type) where
  | returned (value : α)
  | thrown (what : String)
  | undefinedBehavior
  deriving DecidableEq, Repr

/-- The state of a `FontLoader`: the map `fonts_` from file path to `Font`, and, as a
probe on the collaborator, the paths `Font::loadFace` has been called with, in order. -/
structure FontLoader where
  fonts_ : List (String × Font)
  loadFaceCalls : List String
  deriving DecidableEq, Repr

namespace FontLoader

/-- The constructor `FontLoader()` (FontLoader.cpp:106): an empty map. -/
def new : FontLoader := { fonts_ := [], loadFaceCalls := [] }

/-- The lookup `fonts_.find(_path)`. -/
def find (self : FontLoader) (_path : String) : Option Font :=
  (self.fonts_.find? (fun e => decide (e.1 = _path))).map Prod.snd

/-- Assignment through the iterator `k` that `fonts_.find(_path)` returned. -/
def updateFound (_path : String) (f : Font → Font) : List (String × Font) → List (String × Font)
  | [] => []
  | e :: rest =>
    if e.1 = _path then (e.1, f e.2) :: rest else e :: updateFound _path f rest

/-- The method `loadFromFilePath` (FontLoader.cpp:144); `none` is the null pointer. -/
def loadFromFilePath (ft : FreeType) (self : FontLoader) (_path : String) (_fontSize : Int) :
    Option FontRef × FontLoader :=
  match self.find _path with
  | some k =>
    if k.fontSize ≠ _fontSize then
      let fonts := updateFound _path (fun font => font.setFontSize ft _fontSize) self.fonts_
      (some _path, { self with fonts_ := fonts })
    else
      (some _path, self)
  | none =>
    match ft.loadFace _path _fontSize with
    | some face =>
      (some _path,
        { fonts_ := self.fonts_ ++ [(_path, Font.create ft face _fontSize _path)]
          loadFaceCalls := self.loadFaceCalls ++ [_path] })
    | none =>
      (none, { self with loadFaceCalls := self.loadFaceCalls ++ [_path] })

/-- The body of the loop over the fallback candidates (FontLoader.cpp:130-131):
`acc` is `fallbackList` with the loader. -/
def loadFallback (ft : FreeType) (_fontSize : Int) (acc : List FontRef × FontLoader)
    (path : String) : List FontRef × FontLoader :=
  match loadFromFilePath ft acc.2 path _fontSize with
  | (some fallbackFont, self1) => (acc.1 ++ [fallbackFont], self1)
  | (none, self1) => (acc.1, self1)

/-- The loop over the fallback candidates (FontLoader.cpp:129-131):
`for (size_t i = 1; i < filePaths.size(); ++i)` with `filePaths[i]` in the body. -/
def loadFallbacks (ft : FreeType) (filePaths : List String) (_fontSize : Int)
    (self : FontLoader) : List FontRef × FontLoader :=
  indexLoop filePaths 1 (filePaths.length - 1) (loadFallback ft _fontSize) ([], self)

/-- The method `load` (FontLoader.cpp:120). `filePaths.front()` on an empty vector is
undefined behaviour. -/
def load (platformMatcher : String → List String) (ft : FreeType) (self : FontLoader)
    (_fontPattern : String) (_fontSize : Int) : Outcome (FontList FontRef) × FontLoader :=
  let filePaths := getFontFilePaths platformMatcher _fontPattern
  match filePaths.head? with
  | none => (Outcome.undefinedBehavior, self)
  | some front =>
    match loadFromFilePath ft self front _fontSize with
    | (none, self1) =>
      (Outcome.thrown ("Failed to load primary font \"" ++ _fontPattern ++ "\"."), self1)
    | (some primaryFont, self1) =>
      let (fallbackList, self2) := loadFallbacks ft filePaths _fontSize self1
      (Outcome.returned (primaryFont, fallbackList), self2)

/-- The loader after a sequence of `loadFromFilePath(path, size)` calls on a new loader. -/
def afterCalls (ft : FreeType) (requests : List (String × Int)) : FontLoader :=
  requests.foldl (fun self r => (loadFromFilePath ft self r.1 r.2).2) FontLoader.new

/-- The invariant of the map `fonts_`: one node per key, and the font of a node was
opened from the node's key. -/
def WellFormed (self : FontLoader) : Prop :=
  (self.fonts_.map Prod.fst).Nodup ∧ ∀ e ∈ self.fonts_, e.2.filePath = e.1

/-- Whether `loadFromFilePath(path, size)` can load `path`: it is cached in `self`, or
the file opens. -/
def loadable (ft : FreeType) (self : FontLoader) (_fontSize : Int) (_path : String) : Bool :=
  (self.find _path).isSome || (ft.loadFace _path _fontSize).isSome

end FontLoader

/-- The last four characters of `pattern` are those of `suffix`, compared
case-insensitively. -/
def lastFourMatch (pattern suffix : String) : Bool :=
  decide (4 ≤ pattern.length) &&
    decide ((pattern.data.drop (pattern.length - 4)).map Char.toLower
      = suffix.data.map Char.toLower)

/-- A FreeType in which only the files `a.ttf` and `c.otf` open. -/
def sampleFreeType : FreeType where
  loadFace := fun path _ => if path = "a.ttf" then some 1 else if path = "c.otf" then some 3 else none
  metrics := fun _ size => (size, 2 * size, size)

/-- A platform matcher that knows one family: `mono` resolves to `a.ttf`, `b.ttf`,
`c.otf`; any other pattern matches no font file. -/
def sampleMatcher : String → List String :=
  fun pattern => if pattern = "mono" then ["a.ttf", "b.ttf", "c.otf"] else []

/-! ## Call sequences and cache states of the shaper -/

section ShaperCalls

variable {F H : Type}

/-- The output of the first font of the list, in order, whose output `out` has no
entry with a missing glyph; `none` when every font leaves one. -/
def firstResolved (out : F → GlyphPositionList F) : List F → Option (GlyphPositionList F)
  | [] => none
  | f :: rest => if (out f).any glyphMissing then firstResolved out rest else some (out f)

/-- A call of one of the public methods `shape` and `clearCache` of a `TextShaper`. -/
inductive ShaperCall (F : Type) where
  | shape (_script : Script) (_fonts : FontList F) (_advanceX : Int) (_size : Nat)
      (_codepoints : List Nat) (_clusters : List Int) (_clusterGap : Int)
  | clearCache

/-- The constructor `TextShaper()` (TextShaper.cpp:41): the map `hb_fonts_` is empty. -/
def TextShaper.new : TextShaper F H := { hb_fonts_ := [], shapeCalls := [] }

/-- The shaper after one call. -/
def TextShaper.call [DecidableEq F] (E : Engine F H) (self : TextShaper F H) :
    ShaperCall F → TextShaper F H
  | ShaperCall.shape sc fs adv size cps cls gap => (self.shape E sc fs adv size cps cls gap).2
  | ShaperCall.clearCache => self.clearCache

/-- The shaper after a sequence of calls on a newly constructed one. -/
def TextShaper.afterCalls [DecidableEq F] (E : Engine F H) (calls : List (ShaperCall F)) :
    TextShaper F H :=
  calls.foldl (TextShaper.call E) TextShaper.new

/-- Every cached font object is the one `hb_ft_font_create_referenced` creates for its
font now: no font was modified since its font object was created. -/
def cacheCurrent [DecidableEq F] (E : Engine F H) (self : TextShaper F H) : Prop :=
  ∀ f h, self.find f = some h → h = E.hb_ft_font_create_referenced f

/-- The cache of `s2` is that of `s` grown by the fonts `attempted`: `hb_shape` was
invoked for these fonts in between, the keys stay pairwise distinct, every entry of
`s` is still there with its font object, and the keys are the old keys and `attempted`. -/
def cacheGrows [DecidableEq F] (s s2 : TextShaper F H) (attempted : List F) : Prop :=
  s2.shapeCalls = s.shapeCalls ++ attempted
  ∧ ((s.hb_fonts_.map Prod.fst).Nodup → (s2.hb_fonts_.map Prod.fst).Nodup)
  ∧ (∀ g h, s.find g = some h → s2.find g = some h)
  ∧ (∀ g, g ∈ s2.hb_fonts_.map Prod.fst ↔ g ∈ s.hb_fonts_.map Prod.fst ∨ g ∈ attempted)

end ShaperCalls

/-- HarfBuzz over FreeType faces of pixel size `size f`. `hb_ft_font_create_referenced`
takes the scale of the new font object from the face as it is at the call (only
`hb_ft_font_changed` refreshes it later), and `hb_shape` reports positions in the
scale of the font object it is given. Here a font object is its scale, and every run
shapes to the glyph `7` with an x offset of one em. -/
def scaledEngine (size : Nat → Int) : Engine Nat Int where
  hb_ft_font_create_referenced := fun f => size f
  hb_shape := fun h _ => [⟨7, 0, 64 * h, 0⟩]
  FT_Get_Char_Index := fun _ _ => 3

/-- A shaper that shaped a run with font `0` while every font had pixel size 12. -/
def shaperAtSize12 : TextShaper Nat Int :=
  (TextShaper.shape (scaledEngine (fun _ => 12)) TextShaper.new Script.Latin (0, []) 10 1
    [65] [0] 0).2

/-! ## Properties of the shaper -/

section ShaperLemmas

variable {F H : Type}

theorem emplaceGlyphs_eq (_font : F) (_advanceX : Int) (glyphs : List HbGlyph) (n : Nat)
    (r : GlyphPositionList F) :
    TextShaper.emplaceGlyphs _font _advanceX glyphs n r
      = r ++ (glyphs.take n).map (renderGlyph _font _advanceX) := by
  induction n with
  | zero => simp [TextShaper.emplaceGlyphs]
  | succ n ih =>
    unfold TextShaper.emplaceGlyphs at ih ⊢
    rw [List.range_succ, List.foldl_append, ih]
    simp only [List.foldl_cons, List.foldl_nil]
    cases hg : glyphs.get? n with
    | none =>
      have hlen : glyphs.length ≤ n := by
        rw [List.get?_eq_getElem?] at hg
        exact List.getElem?_eq_none_iff.mp hg
      simp [List.take_of_length_le hlen, List.take_of_length_le (Nat.le_succ_of_le hlen)]
    | some g =>
      rw [List.get?_eq_getElem?] at hg
      have hlt : n < glyphs.length := (List.getElem?_eq_some_iff.mp hg).1
      have hge : glyphs[n] = g := (List.getElem?_eq_some_iff.mp hg).2
      rw [List.take_succ, hg]
      simp [renderGlyph, List.append_assoc]

theorem replaceLoop_eq (r : Nat) (l : GlyphPositionList F) (n : Nat) :
    (List.range n).foldl
      (fun res i =>
        match res.get? i with
        | some gp => if glyphMissing gp then res.set i { gp with glyphIndex := r } else res
        | none => res) l
      = (l.take n).map (substituteGlyph r) ++ l.drop n := by
  induction n with
  | zero => simp
  | succ n ih =>
    rw [List.range_succ, List.foldl_append, ih]
    simp only [List.foldl_cons, List.foldl_nil]
    by_cases hlt : n < l.length
    · have hlen : ((l.take n).map (substituteGlyph r)).length = n := by
        simp [List.length_take, Nat.min_eq_left (Nat.le_of_lt hlt)]
      have hget : ((l.take n).map (substituteGlyph r) ++ l.drop n).get? n = some l[n] := by
        rw [List.get?_eq_getElem?, List.getElem?_append_right (by omega), hlen]
        simp [List.getElem?_drop, hlt]
      rw [hget]
      have hdrop : l.drop n = l[n] :: l.drop (n + 1) :=
        List.drop_eq_getElem_cons hlt
      have htake : l.take (n + 1) = l.take n ++ [l[n]] := by
        rw [List.take_succ]; simp [List.getElem?_eq_getElem hlt]
      have hset : ∀ v : GlyphPosition F,
          ((l.take n).map (substituteGlyph r) ++ l.drop n).set n v
            = (l.take n).map (substituteGlyph r) ++ v :: l.drop (n + 1) := by
        intro v
        rw [List.set_append_right _ _ (by omega), hlen, Nat.sub_self]
        conv_lhs => rw [hdrop]
        rfl
      by_cases hm : glyphMissing l[n] = true
      · simp only [hm, if_true, hset, htake, List.map_append, List.map_cons, List.map_nil,
          substituteGlyph, List.append_assoc, List.singleton_append]
      · simp only [hm, htake, List.map_append, List.map_cons, List.map_nil,
          substituteGlyph, List.append_assoc, List.singleton_append, hdrop]
        simp
    · have hle : l.length ≤ n := Nat.le_of_not_lt hlt
      have hget : ((l.take n).map (substituteGlyph r) ++ l.drop n).get? n = none := by
        rw [List.get?_eq_getElem?]
        apply List.getElem?_eq_none_iff.mpr
        simp [List.length_take]; omega
      rw [hget]
      simp [List.take_of_length_le hle, List.take_of_length_le (Nat.le_succ_of_le hle),
        List.drop_of_length_le hle, List.drop_of_length_le (Nat.le_succ_of_le hle)]

theorem replaceMissingGlyphs_eq (E : Engine F H) (_font : F) (l : GlyphPositionList F) :
    TextShaper.replaceMissingGlyphs E _font l
      = if E.FT_Get_Char_Index _font 0xFFFD ≠ 0
        then l.map (substituteGlyph (E.FT_Get_Char_Index _font 0xFFFD)) else l := by
  unfold TextShaper.replaceMissingGlyphs
  by_cases h : E.FT_Get_Char_Index _font 0xFFFD ≠ 0
  · simp only [h, if_true]
    rw [replaceLoop_eq]
    simp
  · simp only [h, if_false]

theorem shapeFont_eq [DecidableEq F] (E : Engine F H) (self : TextShaper F H) (_size : Nat)
    (_codepoints : List Nat) (_clusters : List Int) (_clusterGap : Int) (_script : Script)
    (_font : F) (_advanceX : Int) (_result : GlyphPositionList F) :
    TextShaper.shapeFont E self _size _codepoints _clusters _clusterGap _script _font
        _advanceX _result
      = (!(((engineGlyphs E self _size _codepoints _clusters _clusterGap _script _font).map
              (renderGlyph _font _advanceX)).any glyphMissing),
         (engineGlyphs E self _size _codepoints _clusters _clusterGap _script _font).map
              (renderGlyph _font _advanceX),
         { hb_fonts_ := (match self.find _font with
              | some _ => self.hb_fonts_
              | none => self.hb_fonts_ ++ [(_font, E.hb_ft_font_create_referenced _font)])
           shapeCalls := self.shapeCalls ++ [_font] }) := by
  unfold TextShaper.shapeFont engineGlyphs contextOf
  cases hfind : self.find _font <;> simp [emplaceGlyphs_eq]

theorem shapeFont_irrelevant_result [DecidableEq F] (E : Engine F H) (self : TextShaper F H)
    (_size : Nat) (_codepoints : List Nat) (_clusters : List Int) (_clusterGap : Int)
    (_script : Script) (_font : F) (_advanceX : Int) (r r' : GlyphPositionList F) :
    TextShaper.shapeFont E self _size _codepoints _clusters _clusterGap _script _font
        _advanceX r
      = TextShaper.shapeFont E self _size _codepoints _clusters _clusterGap _script _font
        _advanceX r' := by
  rw [shapeFont_eq, shapeFont_eq]

theorem find_append_single [DecidableEq F] (self : TextShaper F H) (f g : F) (h : H)
    (hnone : self.find f = none) :
    TextShaper.find { self with hb_fonts_ := self.hb_fonts_ ++ [(f, h)] } g
      = if g = f then some h else self.find g := by
  unfold TextShaper.find at hnone ⊢
  simp only [List.find?_append]
  by_cases hgf : g = f
  · subst hgf
    simp only [Option.map_eq_none'] at hnone
    simp [hnone]
  · cases hg : List.find? (fun e => decide (e.1 = g)) self.hb_fonts_ with
    | some e => simp [hgf]
    | none =>
      have : ¬ f = g := fun h => hgf h.symm
      simp [hgf, this, List.find?]

theorem contextOf_shapeFont [DecidableEq F] (E : Engine F H) (self : TextShaper F H)
    (_size : Nat) (_codepoints : List Nat) (_clusters : List Int) (_clusterGap : Int)
    (_script : Script) (_font : F) (_advanceX : Int) (r : GlyphPositionList F) (g : F) :
    contextOf E (TextShaper.shapeFont E self _size _codepoints _clusters _clusterGap _script
        _font _advanceX r).2.2 g = contextOf E self g := by
  rw [shapeFont_eq]
  cases hfind : self.find _font with
  | some h =>
    simp only [contextOf, TextShaper.find] at hfind ⊢
  | none =>
    have key := find_append_single self _font g (E.hb_ft_font_create_referenced _font) hfind
    simp only [contextOf]
    have : TextShaper.find
        ({ hb_fonts_ := self.hb_fonts_ ++ [(_font, E.hb_ft_font_create_referenced _font)]
           shapeCalls := self.shapeCalls ++ [_font] } : TextShaper F H) g
        = if g = _font then some (E.hb_ft_font_create_referenced _font) else self.find g := by
      simpa [TextShaper.find] using key
    simp only [this]
    by_cases hgf : g = _font
    · subst hgf; simp [hfind]
    · simp [hgf]

theorem any_glyphMissing_iff (l : GlyphPositionList F) :
    l.any glyphMissing = true ↔ ∃ gp ∈ l, gp.glyphIndex = 0 := by
  simp [List.any_eq_true, glyphMissing]

theorem attemptOutput_of_contextOf [DecidableEq F] (E : Engine F H) (s self : TextShaper F H)
    (_size : Nat) (_codepoints : List Nat) (_clusters : List Int) (_clusterGap : Int)
    (_script : Script) (_advanceX : Int) (f : F)
    (hctx : ∀ g, contextOf E s g = contextOf E self g) (r : GlyphPositionList F) :
    (TextShaper.shapeFont E s _size _codepoints _clusters _clusterGap _script f _advanceX r).2.1
      = attemptOutput E self _size _codepoints _clusters _clusterGap _script _advanceX f
    ∧ (TextShaper.shapeFont E s _size _codepoints _clusters _clusterGap _script f _advanceX r).1
      = !((attemptOutput E self _size _codepoints _clusters _clusterGap _script _advanceX
            f).any glyphMissing) := by
  unfold attemptOutput
  rw [shapeFont_eq, shapeFont_eq]
  simp [engineGlyphs, hctx]

theorem shapeFont_calls [DecidableEq F] (E : Engine F H) (s : TextShaper F H)
    (_size : Nat) (_codepoints : List Nat) (_clusters : List Int) (_clusterGap : Int)
    (_script : Script) (_advanceX : Int) (f : F) (r : GlyphPositionList F) :
    (TextShaper.shapeFont E s _size _codepoints _clusters _clusterGap _script f _advanceX
      r).2.2.shapeCalls = s.shapeCalls ++ [f] := by
  rw [shapeFont_eq]

theorem shapeFallbacks_all_fail [DecidableEq F] (E : Engine F H) (self : TextShaper F H)
    (_size : Nat) (_codepoints : List Nat) (_clusters : List Int) (_clusterGap : Int)
    (_script : Script) (_advanceX : Int) (fs : List F) :
    ∀ (s : TextShaper F H) (gp : GlyphPositionList F),
    (∀ g, contextOf E s g = contextOf E self g) →
    (∀ g ∈ fs, ∃ e ∈ attemptOutput E self _size _codepoints _clusters _clusterGap _script
        _advanceX g, e.glyphIndex = 0) →
    ∃ gp2 s2, TextShaper.shapeFallbacks E _size _codepoints _clusters _clusterGap _script
          _advanceX fs s gp = (none, gp2, s2)
      ∧ s2.shapeCalls = s.shapeCalls ++ fs
      ∧ ∀ g, contextOf E s2 g = contextOf E self g := by
  induction fs with
  | nil =>
    intro s gp hctx _
    exact ⟨gp, s, rfl, by simp, hctx⟩
  | cons f rest ih =>
    intro s gp hctx hfail
    have hout := attemptOutput_of_contextOf E s self _size _codepoints _clusters _clusterGap
      _script _advanceX f hctx gp
    have hf : (attemptOutput E self _size _codepoints _clusters _clusterGap _script _advanceX
        f).any glyphMissing = true :=
      (any_glyphMissing_iff _).mpr (hfail f (List.mem_cons_self _ _))
    have hctx1 : ∀ g, contextOf E (TextShaper.shapeFont E s _size _codepoints _clusters
        _clusterGap _script f _advanceX gp).2.2 g = contextOf E self g := by
      intro g; rw [contextOf_shapeFont]; exact hctx g
    have hcalls := shapeFont_calls E s _size _codepoints _clusters _clusterGap _script
      _advanceX f gp
    obtain ⟨gp2, s2, heq, hc2, hctx2⟩ := ih
      (TextShaper.shapeFont E s _size _codepoints _clusters _clusterGap _script f _advanceX
        gp).2.2
      (TextShaper.shapeFont E s _size _codepoints _clusters _clusterGap _script f _advanceX
        gp).2.1 hctx1 (fun g hg => hfail g (List.mem_cons_of_mem _ hg))
    refine ⟨gp2, s2, ?_, ?_, hctx2⟩
    · unfold TextShaper.shapeFallbacks
      generalize hres : TextShaper.shapeFont E s _size _codepoints _clusters _clusterGap
        _script f _advanceX gp = res at hout heq
      obtain ⟨b, o, t⟩ := res
      simp only at hout heq
      have hb : b = false := by rw [hout.2, hf]; rfl
      subst hb
      simpa using heq
    · rw [hc2, hcalls]; simp

theorem shapeFallbacks_first [DecidableEq F] (E : Engine F H) (self : TextShaper F H)
    (_size : Nat) (_codepoints : List Nat) (_clusters : List Int) (_clusterGap : Int)
    (_script : Script) (_advanceX : Int) (f : F) (post : List F) (pre : List F) :
    ∀ (s : TextShaper F H) (gp : GlyphPositionList F),
    (∀ g, contextOf E s g = contextOf E self g) →
    (∀ g ∈ pre, ∃ e ∈ attemptOutput E self _size _codepoints _clusters _clusterGap _script
        _advanceX g, e.glyphIndex = 0) →
    (∀ e ∈ attemptOutput E self _size _codepoints _clusters _clusterGap _script _advanceX f,
        e.glyphIndex ≠ 0) →
    ∃ s2, TextShaper.shapeFallbacks E _size _codepoints _clusters _clusterGap _script
          _advanceX (pre ++ f :: post) s gp
        = (some (attemptOutput E self _size _codepoints _clusters _clusterGap _script
            _advanceX f),
           attemptOutput E self _size _codepoints _clusters _clusterGap _script _advanceX f,
           s2)
      ∧ s2.shapeCalls = s.shapeCalls ++ (pre ++ [f]) := by
  induction pre with
  | nil =>
    intro s gp hctx _ hok
    have hout := attemptOutput_of_contextOf E s self _size _codepoints _clusters _clusterGap
      _script _advanceX f hctx gp
    have hf : (attemptOutput E self _size _codepoints _clusters _clusterGap _script _advanceX
        f).any glyphMissing = false := by
      cases hany : (attemptOutput E self _size _codepoints _clusters _clusterGap _script
        _advanceX f).any glyphMissing with
      | false => rfl
      | true =>
        obtain ⟨e, he, h0⟩ := (any_glyphMissing_iff _).mp hany
        exact absurd h0 (hok e he)
    have hcalls := shapeFont_calls E s _size _codepoints _clusters _clusterGap _script
      _advanceX f gp
    refine ⟨(TextShaper.shapeFont E s _size _codepoints _clusters _clusterGap _script f
      _advanceX gp).2.2, ?_, ?_⟩
    · simp only [List.nil_append]
      unfold TextShaper.shapeFallbacks
      generalize hres : TextShaper.shapeFont E s _size _codepoints _clusters _clusterGap
        _script f _advanceX gp = res at hout
      obtain ⟨b, o, t⟩ := res
      simp only at hout
      have hb : b = true := by rw [hout.2, hf]; rfl
      subst hb
      simp [hout.1]
    · rw [hcalls]; simp
  | cons p pre ih =>
    intro s gp hctx hfail hok
    have hout := attemptOutput_of_contextOf E s self _size _codepoints _clusters _clusterGap
      _script _advanceX p hctx gp
    have hp : (attemptOutput E self _size _codepoints _clusters _clusterGap _script _advanceX
        p).any glyphMissing = true :=
      (any_glyphMissing_iff _).mpr (hfail p (List.mem_cons_self _ _))
    have hctx1 : ∀ g, contextOf E (TextShaper.shapeFont E s _size _codepoints _clusters
        _clusterGap _script p _advanceX gp).2.2 g = contextOf E self g := by
      intro g; rw [contextOf_shapeFont]; exact hctx g
    have hcalls := shapeFont_calls E s _size _codepoints _clusters _clusterGap _script
      _advanceX p gp
    obtain ⟨s2, heq, hc2⟩ := ih
      (TextShaper.shapeFont E s _size _codepoints _clusters _clusterGap _script p _advanceX
        gp).2.2
      (TextShaper.shapeFont E s _size _codepoints _clusters _clusterGap _script p _advanceX
        gp).2.1 hctx1 (fun g hg => hfail g (List.mem_cons_of_mem _ hg)) hok
    refine ⟨s2, ?_, ?_⟩
    · simp only [List.cons_append]
      unfold TextShaper.shapeFallbacks
      generalize hres : TextShaper.shapeFont E s _size _codepoints _clusters _clusterGap
        _script p _advanceX gp = res at hout heq
      obtain ⟨b, o, t⟩ := res
      simp only at hout heq
      have hb : b = false := by rw [hout.2, hp]; rfl
      subst hb
      simpa using heq
    · rw [hc2, hcalls]; simp

theorem shapeFallbacks_eq_firstResolved [DecidableEq F] (E : Engine F H)
    (self : TextShaper F H) (_size : Nat) (_codepoints : List Nat) (_clusters : List Int)
    (_clusterGap : Int) (_script : Script) (_advanceX : Int) (fs : List F) :
    ∀ (s : TextShaper F H) (gp : GlyphPositionList F),
    (∀ g, contextOf E s g = contextOf E self g) →
    ∃ x s2, TextShaper.shapeFallbacks E _size _codepoints _clusters _clusterGap _script
          _advanceX fs s gp
        = (firstResolved (attemptOutput E self _size _codepoints _clusters _clusterGap
            _script _advanceX) fs, x, s2)
      ∧ (firstResolved (attemptOutput E self _size _codepoints _clusters _clusterGap
            _script _advanceX) fs = none → ∀ g, contextOf E s2 g = contextOf E self g) := by
  induction fs with
  | nil =>
    intro s gp hctx
    exact ⟨gp, s, rfl, fun _ => hctx⟩
  | cons f rest ih =>
    intro s gp hctx
    have hout := attemptOutput_of_contextOf E s self _size _codepoints _clusters _clusterGap
      _script _advanceX f hctx gp
    have hctx1 : ∀ g, contextOf E (TextShaper.shapeFont E s _size _codepoints _clusters
        _clusterGap _script f _advanceX gp).2.2 g = contextOf E self g := by
      intro g; rw [contextOf_shapeFont]; exact hctx g
    obtain ⟨x, s2, heq, hctx2⟩ := ih
      (TextShaper.shapeFont E s _size _codepoints _clusters _clusterGap _script f _advanceX
        gp).2.2
      (TextShaper.shapeFont E s _size _codepoints _clusters _clusterGap _script f _advanceX
        gp).2.1 hctx1
    unfold TextShaper.shapeFallbacks firstResolved
    generalize hres : TextShaper.shapeFont E s _size _codepoints _clusters _clusterGap
      _script f _advanceX gp = res at hout heq hctx1
    obtain ⟨b, o, t⟩ := res
    simp only at hout heq hctx1
    cases hany : (attemptOutput E self _size _codepoints _clusters _clusterGap _script
        _advanceX f).any glyphMissing with
    | true =>
      have hb : b = false := by rw [hout.2, hany]; rfl
      subst hb
      simp only [if_true]
      exact ⟨x, s2, heq, hctx2⟩
    | false =>
      have hb : b = true := by rw [hout.2, hany]; rfl
      subst hb
      simp only [Bool.false_eq_true, if_false]
      refine ⟨o, t, ?_, ?_⟩
      · rw [hout.1]
      · intro h; exact absurd h (by simp)

theorem shape_fst_eq [DecidableEq F] (E : Engine F H) (self : TextShaper F H)
    (_script : Script) (primary : F) (fallbacks : List F) (_advanceX : Int) (_size : Nat)
    (_codepoints : List Nat) (_clusters : List Int) (_clusterGap : Int) :
    (TextShaper.shape E self _script (primary, fallbacks) _advanceX _size _codepoints
        _clusters _clusterGap).1
      = match firstResolved (attemptOutput E self _size _codepoints _clusters _clusterGap
            _script _advanceX) (primary :: fallbacks) with
        | some gp => gp
        | none => TextShaper.replaceMissingGlyphs E primary
            (attemptOutput E self _size _codepoints _clusters _clusterGap _script _advanceX
              primary) := by
  have hout := attemptOutput_of_contextOf E self self _size _codepoints _clusters
    _clusterGap _script _advanceX primary (fun _ => rfl) []
  have hctx1 : ∀ g, contextOf E (TextShaper.shapeFont E self _size _codepoints _clusters
      _clusterGap _script primary _advanceX []).2.2 g = contextOf E self g :=
    fun g => contextOf_shapeFont E self _size _codepoints _clusters _clusterGap _script
      primary _advanceX [] g
  obtain ⟨x, s2, heq, hctx2⟩ := shapeFallbacks_eq_firstResolved E self _size _codepoints
    _clusters _clusterGap _script _advanceX fallbacks
    (TextShaper.shapeFont E self _size _codepoints _clusters _clusterGap _script primary
      _advanceX []).2.2
    (TextShaper.shapeFont E self _size _codepoints _clusters _clusterGap _script primary
      _advanceX []).2.1 hctx1
  unfold TextShaper.shape
  simp only [firstResolved]
  generalize hres : TextShaper.shapeFont E self _size _codepoints _clusters _clusterGap
    _script primary _advanceX [] = res at hout heq hctx1
  obtain ⟨b, o, t⟩ := res
  simp only at hout heq hctx1
  cases hany : (attemptOutput E self _size _codepoints _clusters _clusterGap _script
      _advanceX primary).any glyphMissing with
  | false =>
    have hb : b = true := by rw [hout.2, hany]; rfl
    subst hb
    simp only [Bool.false_eq_true, if_false]
    exact hout.1
  | true =>
    have hb : b = false := by rw [hout.2, hany]; rfl
    subst hb
    simp only [if_true, heq]
    cases hfirst : firstResolved (attemptOutput E self _size _codepoints _clusters
        _clusterGap _script _advanceX) fallbacks with
    | some gp => rfl
    | none =>
      simp only
      have h3 := attemptOutput_of_contextOf E s2 self _size _codepoints _clusters
        _clusterGap _script _advanceX primary (hctx2 hfirst) x
      rw [h3.1]

theorem attemptOutput_font [DecidableEq F] (E : Engine F H) (self : TextShaper F H)
    (_size : Nat) (_codepoints : List Nat) (_clusters : List Int) (_clusterGap : Int)
    (_script : Script) (_advanceX : Int) (f : F) :
    ∀ e ∈ attemptOutput E self _size _codepoints _clusters _clusterGap _script _advanceX f,
      e.font = f := by
  intro e he
  unfold attemptOutput at he
  rw [shapeFont_eq] at he
  obtain ⟨g, _, rfl⟩ := List.mem_map.mp he
  rfl

theorem replaceMissingGlyphs_font (E : Engine F H) (_font : F) (l : GlyphPositionList F)
    (f : F) (h : ∀ e ∈ l, e.font = f) :
    ∀ e ∈ TextShaper.replaceMissingGlyphs E _font l, e.font = f := by
  intro e he
  rw [replaceMissingGlyphs_eq] at he
  by_cases hr : E.FT_Get_Char_Index _font 0xFFFD ≠ 0
  · rw [if_pos hr] at he
    obtain ⟨e0, he0, rfl⟩ := List.mem_map.mp he
    have := h e0 he0
    unfold substituteGlyph
    by_cases hm : glyphMissing e0 = true
    · simp only [hm, if_true]; exact this
    · simp only [hm, if_false]; exact this
  · rw [if_neg hr] at he
    exact h e he

theorem firstResolved_some (out : F → GlyphPositionList F) (fs : List F)
    (gp : GlyphPositionList F) (h : firstResolved out fs = some gp) :
    ∃ f ∈ fs, gp = out f ∧ (out f).any glyphMissing = false := by
  induction fs with
  | nil => simp [firstResolved] at h
  | cons f rest ih =>
    unfold firstResolved at h
    cases hany : (out f).any glyphMissing with
    | true =>
      rw [hany] at h
      simp only [if_true] at h
      obtain ⟨g, hg, hgp, hok⟩ := ih h
      exact ⟨g, List.mem_cons_of_mem _ hg, hgp, hok⟩
    | false =>
      rw [hany] at h
      simp only [Bool.false_eq_true, if_false, Option.some.injEq] at h
      exact ⟨f, List.mem_cons_self _ _, h.symm, hany⟩

theorem firstResolved_none_of_all_missing (out : F → GlyphPositionList F) (fs : List F)
    (h : ∀ f ∈ fs, (out f).any glyphMissing = true) : firstResolved out fs = none := by
  induction fs with
  | nil => rfl
  | cons f rest ih =>
    unfold firstResolved
    rw [h f (List.mem_cons_self _ _)]
    simp only [if_true]
    exact ih (fun g hg => h g (List.mem_cons_of_mem _ hg))

theorem contextOf_of_cacheCurrent [DecidableEq F] (E : Engine F H) (self : TextShaper F H)
    (h : cacheCurrent E self) (g : F) :
    contextOf E self g = E.hb_ft_font_create_referenced g := by
  unfold contextOf
  cases hfind : self.find g with
  | none => rfl
  | some c => exact h g c hfind

theorem cacheCurrent_of_contextOf [DecidableEq F] (E : Engine F H) (self : TextShaper F H)
    (h : ∀ g, contextOf E self g = E.hb_ft_font_create_referenced g) :
    cacheCurrent E self := by
  intro f c hfind
  have := h f
  unfold contextOf at this
  rw [hfind] at this
  exact this

theorem attemptOutput_congr [DecidableEq F] (E : Engine F H) (s1 s2 : TextShaper F H)
    (_size : Nat) (_codepoints : List Nat) (_clusters : List Int) (_clusterGap : Int)
    (_script : Script) (_advanceX : Int) (hctx : ∀ g, contextOf E s1 g = contextOf E s2 g) :
    attemptOutput E s1 _size _codepoints _clusters _clusterGap _script _advanceX
      = attemptOutput E s2 _size _codepoints _clusters _clusterGap _script _advanceX := by
  funext f
  exact (attemptOutput_of_contextOf E s1 s2 _size _codepoints _clusters _clusterGap _script
    _advanceX f hctx []).1

theorem shape_fst_congr [DecidableEq F] (E : Engine F H) (s1 s2 : TextShaper F H)
    (_script : Script) (_fonts : FontList F) (_advanceX : Int) (_size : Nat)
    (_codepoints : List Nat) (_clusters : List Int) (_clusterGap : Int)
    (hctx : ∀ g, contextOf E s1 g = contextOf E s2 g) :
    (TextShaper.shape E s1 _script _fonts _advanceX _size _codepoints _clusters
        _clusterGap).1
      = (TextShaper.shape E s2 _script _fonts _advanceX _size _codepoints _clusters
        _clusterGap).1 := by
  obtain ⟨primary, fallbacks⟩ := _fonts
  rw [shape_fst_eq, shape_fst_eq,
    attemptOutput_congr E s1 s2 _size _codepoints _clusters _clusterGap _script _advanceX hctx]

theorem contextOf_shapeFallbacks [DecidableEq F] (E : Engine F H) (_size : Nat)
    (_codepoints : List Nat) (_clusters : List Int) (_clusterGap : Int) (_script : Script)
    (_advanceX : Int) (fs : List F) :
    ∀ (s : TextShaper F H) (gp : GlyphPositionList F) (g : F),
      contextOf E (TextShaper.shapeFallbacks E _size _codepoints _clusters _clusterGap
        _script _advanceX fs s gp).2.2 g = contextOf E s g := by
  induction fs with
  | nil => intro s gp g; rfl
  | cons f rest ih =>
    intro s gp g
    have h1 := contextOf_shapeFont E s _size _codepoints _clusters _clusterGap _script f
      _advanceX gp g
    have h2 := ih (TextShaper.shapeFont E s _size _codepoints _clusters _clusterGap _script
      f _advanceX gp).2.2 (TextShaper.shapeFont E s _size _codepoints _clusters _clusterGap
      _script f _advanceX gp).2.1 g
    unfold TextShaper.shapeFallbacks
    generalize TextShaper.shapeFont E s _size _codepoints _clusters _clusterGap _script f
      _advanceX gp = res at h1 h2
    obtain ⟨b, o, t⟩ := res
    cases b with
    | true => exact h1
    | false => simp only at h1 h2 ⊢; rw [h2, h1]

theorem contextOf_shape [DecidableEq F] (E : Engine F H) (self : TextShaper F H)
    (_script : Script) (_fonts : FontList F) (_advanceX : Int) (_size : Nat)
    (_codepoints : List Nat) (_clusters : List Int) (_clusterGap : Int) (g : F) :
    contextOf E (TextShaper.shape E self _script _fonts _advanceX _size _codepoints
      _clusters _clusterGap).2 g = contextOf E self g := by
  have h1 := contextOf_shapeFont E self _size _codepoints _clusters _clusterGap _script
    _fonts.1 _advanceX [] g
  unfold TextShaper.shape
  generalize hres : TextShaper.shapeFont E self _size _codepoints _clusters _clusterGap
    _script _fonts.1 _advanceX [] = res at h1
  obtain ⟨b, o, t⟩ := res
  cases b with
  | true => simp only [hres]; exact h1
  | false =>
    simp only at h1
    have h2 := contextOf_shapeFallbacks E _size _codepoints _clusters _clusterGap _script
      _advanceX _fonts.2 t o g
    generalize hres2 : TextShaper.shapeFallbacks E _size _codepoints _clusters _clusterGap
      _script _advanceX _fonts.2 t o = res2 at h2
    obtain ⟨r, o2, t2⟩ := res2
    cases r with
    | some gp2 => simp only [hres, hres2]; simp only at h2; rw [h2, h1]
    | none =>
      simp only [hres, hres2]
      simp only at h2
      rw [contextOf_shapeFont, h2, h1]

theorem cacheCurrent_afterCalls [DecidableEq F] (E : Engine F H)
    (calls : List (ShaperCall F)) : cacheCurrent E (TextShaper.afterCalls E calls) := by
  unfold TextShaper.afterCalls
  have gen : ∀ (cs : List (ShaperCall F)) (s : TextShaper F H), cacheCurrent E s →
      cacheCurrent E (cs.foldl (TextShaper.call E) s) := by
    intro cs
    induction cs with
    | nil => intro s hs; exact hs
    | cons c cs ih =>
      intro s hs
      apply ih
      cases c with
      | shape sc fs adv size cps cls gap =>
        apply cacheCurrent_of_contextOf
        intro g
        show contextOf E (TextShaper.shape E s sc fs adv size cps cls gap).2 g = _
        rw [contextOf_shape]
        exact contextOf_of_cacheCurrent E s hs g
      | clearCache =>
        intro f c hfind
        simp [TextShaper.call, TextShaper.clearCache, TextShaper.find] at hfind
  apply gen
  intro f c hfind
  simp [TextShaper.new, TextShaper.find] at hfind

theorem shaper_find_isSome_iff [DecidableEq F] (self : TextShaper F H) (g : F) :
    (self.find g).isSome = true ↔ g ∈ self.hb_fonts_.map Prod.fst := by
  unfold TextShaper.find
  simp only [Option.isSome_map', List.find?_isSome, decide_eq_true_eq, List.mem_map]

theorem cacheGrows_refl [DecidableEq F] (s : TextShaper F H) : cacheGrows s s [] := by
  refine ⟨by simp, fun h => h, fun _ _ h => h, fun g => by simp⟩

theorem cacheGrows_trans [DecidableEq F] (s s2 s3 : TextShaper F H) (a b : List F)
    (h1 : cacheGrows s s2 a) (h2 : cacheGrows s2 s3 b) : cacheGrows s s3 (a ++ b) := by
  obtain ⟨hc1, hn1, hf1, hk1⟩ := h1
  obtain ⟨hc2, hn2, hf2, hk2⟩ := h2
  refine ⟨?_, fun h => hn2 (hn1 h), fun g h hg => hf2 g h (hf1 g h hg), ?_⟩
  · rw [hc2, hc1, List.append_assoc]
  · intro g
    rw [hk2, hk1, List.mem_append, or_assoc]

theorem cacheGrows_shapeFont [DecidableEq F] (E : Engine F H) (s : TextShaper F H)
    (_size : Nat) (_codepoints : List Nat) (_clusters : List Int) (_clusterGap : Int)
    (_script : Script) (f : F) (_advanceX : Int) (r : GlyphPositionList F) :
    cacheGrows s (TextShaper.shapeFont E s _size _codepoints _clusters _clusterGap _script f
      _advanceX r).2.2 [f] := by
  rw [shapeFont_eq]
  cases hfind : s.find f with
  | some h =>
    have hmem : f ∈ s.hb_fonts_.map Prod.fst := by
      rw [← shaper_find_isSome_iff, hfind]; rfl
    refine ⟨rfl, fun hn => hn, ?_, ?_⟩
    · intro g c hg
      simpa [TextShaper.find] using hg
    · intro g
      simp only [List.mem_singleton]
      constructor
      · exact Or.inl
      · rintro (h1 | rfl)
        · exact h1
        · exact hmem
  | none =>
    have hnot : f ∉ s.hb_fonts_.map Prod.fst := by
      rw [← shaper_find_isSome_iff, hfind]; simp
    have hfa := find_append_single s f
    refine ⟨rfl, ?_, ?_, ?_⟩
    · intro hn
      simp only [List.map_append, List.map_cons, List.map_nil]
      rw [List.nodup_append]
      refine ⟨hn, List.nodup_singleton _, ?_⟩
      intro a ha hb
      rw [List.mem_singleton] at hb
      subst hb
      exact hnot ha
    · intro g c hg
      have key := hfa g (E.hb_ft_font_create_referenced f) hfind
      have hne : g ≠ f := by
        intro hgf; subst hgf; rw [hfind] at hg; exact absurd hg (by simp)
      have : TextShaper.find
          ({ hb_fonts_ := s.hb_fonts_ ++ [(f, E.hb_ft_font_create_referenced f)]
             shapeCalls := s.shapeCalls ++ [f] } : TextShaper F H) g = s.find g := by
        have k2 : TextShaper.find
            ({ hb_fonts_ := s.hb_fonts_ ++ [(f, E.hb_ft_font_create_referenced f)]
               shapeCalls := s.shapeCalls ++ [f] } : TextShaper F H) g
            = if g = f then some (E.hb_ft_font_create_referenced f) else s.find g := by
          simpa [TextShaper.find] using key
        rw [k2, if_neg hne]
      rw [this]; exact hg
    · intro g
      simp only [List.map_append, List.map_cons, List.map_nil, List.mem_append,
        List.mem_singleton]

theorem cacheGrows_shapeFallbacks [DecidableEq F] (E : Engine F H) (_size : Nat)
    (_codepoints : List Nat) (_clusters : List Int) (_clusterGap : Int) (_script : Script)
    (_advanceX : Int) (fs : List F) :
    ∀ (s : TextShaper F H) (gp : GlyphPositionList F),
      ∃ attempted, cacheGrows s (TextShaper.shapeFallbacks E _size _codepoints _clusters
          _clusterGap _script _advanceX fs s gp).2.2 attempted
        ∧ ∀ g ∈ attempted, g ∈ fs := by
  induction fs with
  | nil =>
    intro s gp
    exact ⟨[], cacheGrows_refl s, by simp⟩
  | cons f rest ih =>
    intro s gp
    have h1 := cacheGrows_shapeFont E s _size _codepoints _clusters _clusterGap _script f
      _advanceX gp
    obtain ⟨att, h2, hsub⟩ := ih (TextShaper.shapeFont E s _size _codepoints _clusters
      _clusterGap _script f _advanceX gp).2.2 (TextShaper.shapeFont E s _size _codepoints
      _clusters _clusterGap _script f _advanceX gp).2.1
    unfold TextShaper.shapeFallbacks
    generalize TextShaper.shapeFont E s _size _codepoints _clusters _clusterGap _script f
      _advanceX gp = res at h1 h2
    obtain ⟨b, o, t⟩ := res
    cases b with
    | true => exact ⟨[f], h1, by simp⟩
    | false =>
      simp only at h1 h2 ⊢
      refine ⟨[f] ++ att, cacheGrows_trans s t _ [f] att h1 h2, ?_⟩
      intro g hg
      rcases List.mem_append.mp hg with hg | hg
      · rw [List.mem_singleton] at hg; subst hg; exact List.mem_cons_self _ _
      · exact List.mem_cons_of_mem _ (hsub g hg)

theorem cacheGrows_shape [DecidableEq F] (E : Engine F H) (self : TextShaper F H)
    (_script : Script) (_fonts : FontList F) (_advanceX : Int) (_size : Nat)
    (_codepoints : List Nat) (_clusters : List Int) (_clusterGap : Int) :
    ∃ attempted, cacheGrows self (TextShaper.shape E self _script _fonts _advanceX _size
        _codepoints _clusters _clusterGap).2 attempted
      ∧ ∀ g ∈ attempted, g ∈ _fonts.1 :: _fonts.2 := by
  have h1 := cacheGrows_shapeFont E self _size _codepoints _clusters _clusterGap _script
    _fonts.1 _advanceX []
  unfold TextShaper.shape
  generalize hres : TextShaper.shapeFont E self _size _codepoints _clusters _clusterGap
    _script _fonts.1 _advanceX [] = res at h1
  obtain ⟨b, o, t⟩ := res
  cases b with
  | true =>
    simp only [hres]
    exact ⟨[_fonts.1], h1, by simp⟩
  | false =>
    simp only at h1
    obtain ⟨att, h2, hsub⟩ := cacheGrows_shapeFallbacks E _size _codepoints _clusters
      _clusterGap _script _advanceX _fonts.2 t o
    generalize hres2 : TextShaper.shapeFallbacks E _size _codepoints _clusters _clusterGap
      _script _advanceX _fonts.2 t o = res2 at h2
    obtain ⟨r, o2, t2⟩ := res2
    simp only at h2
    cases r with
    | some gp2 =>
      simp only [hres, hres2]
      refine ⟨[_fonts.1] ++ att, cacheGrows_trans self t t2 _ _ h1 h2, ?_⟩
      intro g hg
      rcases List.mem_append.mp hg with hg | hg
      · rw [List.mem_singleton] at hg; subst hg; exact List.mem_cons_self _ _
      · exact List.mem_cons_of_mem _ (hsub g hg)
    | none =>
      simp only [hres, hres2]
      have h3 := cacheGrows_shapeFont E t2 _size _codepoints _clusters _clusterGap _script
        _fonts.1 _advanceX o2
      refine ⟨([_fonts.1] ++ att) ++ [_fonts.1],
        cacheGrows_trans self t2 _ _ _ (cacheGrows_trans self t t2 _ _ h1 h2) h3, ?_⟩
      intro g hg
      rcases List.mem_append.mp hg with hg | hg
      · rcases List.mem_append.mp hg with hg | hg
        · rw [List.mem_singleton] at hg; subst hg; exact List.mem_cons_self _ _
        · exact List.mem_cons_of_mem _ (hsub g hg)
      · rw [List.mem_singleton] at hg; subst hg; exact List.mem_cons_self _ _

theorem nodup_keys_afterCalls [DecidableEq F] (E : Engine F H)
    (calls : List (ShaperCall F)) :
    ((TextShaper.afterCalls E calls).hb_fonts_.map Prod.fst).Nodup := by
  unfold TextShaper.afterCalls
  have gen : ∀ (cs : List (ShaperCall F)) (s : TextShaper F H),
      (s.hb_fonts_.map Prod.fst).Nodup →
      ((cs.foldl (TextShaper.call E) s).hb_fonts_.map Prod.fst).Nodup := by
    intro cs
    induction cs with
    | nil => intro s hs; exact hs
    | cons c cs ih =>
      intro s hs
      apply ih
      cases c with
      | shape sc fs adv size cps cls gap =>
        obtain ⟨att, hg, _⟩ := cacheGrows_shape E s sc fs adv size cps cls gap
        exact hg.2.1 hs
      | clearCache =>
        simp [TextShaper.call, TextShaper.clearCache]
  apply gen
  simp [TextShaper.new]

end ShaperLemmas

/-! ## The fallback search of `TextShaper::shape` -/

/-- C1: `TextShaper::shape` tries primary, fallbacks[0], fallbacks[1], ... in this order
and returns the per-font output of the first font whose output has no entry with
`glyphIndex == 0`; the engine is invoked for the fonts up to that one and for no later
font (with `pre = []`: once, for the primary font alone). -/
theorem shape_returns_first_resolved_font {F H : Type} [DecidableEq F] (E : Engine F H)
    (self : TextShaper F H) (_script : Script) (primary : F) (fallbacks : List F)
    (_advanceX : Int) (_size : Nat) (_codepoints : List Nat) (_clusters : List Int)
    (_clusterGap : Int) (pre post : List F) (f : F)
    (hsplit : primary :: fallbacks = pre ++ f :: post)
    (hpre : ∀ g ∈ pre, ∃ e ∈ attemptOutput E self _size _codepoints _clusters _clusterGap
        _script _advanceX g, e.glyphIndex = 0)
    (hf : ∀ e ∈ attemptOutput E self _size _codepoints _clusters _clusterGap _script
        _advanceX f, e.glyphIndex ≠ 0) :
    (TextShaper.shape E self _script (primary, fallbacks) _advanceX _size _codepoints
        _clusters _clusterGap).1
      = attemptOutput E self _size _codepoints _clusters _clusterGap _script _advanceX f
    ∧ (TextShaper.shape E self _script (primary, fallbacks) _advanceX _size _codepoints
        _clusters _clusterGap).2.shapeCalls = self.shapeCalls ++ (pre ++ [f]) := by
  have hout := fun g => attemptOutput_of_contextOf E self self _size _codepoints _clusters
    _clusterGap _script _advanceX g (fun _ => rfl) []
  cases pre with
  | nil =>
    simp only [List.nil_append, List.cons.injEq] at hsplit
    obtain ⟨hp, _⟩ := hsplit
    subst hp
    have hany : (attemptOutput E self _size _codepoints _clusters _clusterGap _script
        _advanceX primary).any glyphMissing = false := by
      cases hany : (attemptOutput E self _size _codepoints _clusters _clusterGap _script
        _advanceX primary).any glyphMissing with
      | false => rfl
      | true =>
        obtain ⟨e, he, h0⟩ := (any_glyphMissing_iff _).mp hany
        exact absurd h0 (hf e he)
    have hcalls := shapeFont_calls E self _size _codepoints _clusters _clusterGap _script
      _advanceX primary []
    unfold TextShaper.shape
    have h1 := hout primary
    generalize hres : TextShaper.shapeFont E self _size _codepoints _clusters _clusterGap
      _script primary _advanceX [] = res at h1 hcalls
    obtain ⟨b, o, t⟩ := res
    simp only at h1 hcalls
    have hb : b = true := by rw [h1.2, hany]; rfl
    subst hb
    simp [hres, h1.1, hcalls]
  | cons p pre =>
    simp only [List.cons_append, List.cons.injEq] at hsplit
    obtain ⟨hp, hfb⟩ := hsplit
    subst hp
    subst hfb
    have hany : (attemptOutput E self _size _codepoints _clusters _clusterGap _script
        _advanceX primary).any glyphMissing = true :=
      (any_glyphMissing_iff _).mpr (hpre primary (List.mem_cons_self _ _))
    have hcalls := shapeFont_calls E self _size _codepoints _clusters _clusterGap _script
      _advanceX primary []
    have hctx1 : ∀ g, contextOf E (TextShaper.shapeFont E self _size _codepoints _clusters
        _clusterGap _script primary _advanceX []).2.2 g = contextOf E self g :=
      fun g => contextOf_shapeFont E self _size _codepoints _clusters _clusterGap _script
        primary _advanceX [] g
    obtain ⟨s2, heq, hc2⟩ := shapeFallbacks_first E self _size _codepoints _clusters
      _clusterGap _script _advanceX f post pre
      (TextShaper.shapeFont E self _size _codepoints _clusters _clusterGap _script primary
        _advanceX []).2.2
      (TextShaper.shapeFont E self _size _codepoints _clusters _clusterGap _script primary
        _advanceX []).2.1 hctx1 (fun g hg => hpre g (List.mem_cons_of_mem _ hg)) hf
    unfold TextShaper.shape
    have h1 := hout primary
    generalize hres : TextShaper.shapeFont E self _size _codepoints _clusters _clusterGap
      _script primary _advanceX [] = res at h1 hcalls heq hc2
    obtain ⟨b, o, t⟩ := res
    simp only at h1 hcalls heq hc2
    have hb : b = false := by rw [h1.2, hany]; rfl
    subst hb
    simp [hres, heq, hc2, hcalls]

/-- A worked instance: the primary font `1` lacks the glyph, the first fallback `2`
has it; the output is that of font `2` and the engine ran for `1` and `2`, not for `3`. -/
theorem shape_returns_first_resolved_font_witness :
    (TextShaper.shape sampleEngine freshShaper Script.Latin (1, [2, 3]) 10 1 [65] [0] 0).1
      = attemptOutput sampleEngine freshShaper 1 [65] [0] 0 Script.Latin 10 2
    ∧ (TextShaper.shape sampleEngine freshShaper Script.Latin (1, [2, 3]) 10 1 [65] [0]
        0).2.shapeCalls = [1, 2] :=
  shape_returns_first_resolved_font sampleEngine freshShaper Script.Latin 1 [2, 3] 10 1 [65]
    [0] 0 [1] [3] 2 rfl (by decide) (by decide)

/-- C2: when the primary font and every fallback font each produce an entry with
`glyphIndex == 0`, `TextShaper::shape` still returns a list: `replaceMissingGlyphs` for
the primary font applied to the primary font's output, with as many entries as the
engine reports glyphs for the primary font. -/
theorem shape_degrades_to_primary_font {F H : Type} [DecidableEq F] (E : Engine F H)
    (self : TextShaper F H) (_script : Script) (primary : F) (fallbacks : List F)
    (_advanceX : Int) (_size : Nat) (_codepoints : List Nat) (_clusters : List Int)
    (_clusterGap : Int)
    (hall : ∀ g ∈ primary :: fallbacks, ∃ e ∈ attemptOutput E self _size _codepoints
        _clusters _clusterGap _script _advanceX g, e.glyphIndex = 0) :
    (TextShaper.shape E self _script (primary, fallbacks) _advanceX _size _codepoints
        _clusters _clusterGap).1
      = TextShaper.replaceMissingGlyphs E primary
          (attemptOutput E self _size _codepoints _clusters _clusterGap _script _advanceX
            primary)
    ∧ (TextShaper.shape E self _script (primary, fallbacks) _advanceX _size _codepoints
        _clusters _clusterGap).1.length
      = (engineGlyphs E self _size _codepoints _clusters _clusterGap _script primary).length
    ∧ (TextShaper.shape E self _script (primary, fallbacks) _advanceX _size _codepoints
        _clusters _clusterGap).2.shapeCalls
      = self.shapeCalls ++ (primary :: fallbacks ++ [primary]) := by
  have hout := attemptOutput_of_contextOf E self self _size _codepoints _clusters
    _clusterGap _script _advanceX primary (fun _ => rfl) []
  have hany : (attemptOutput E self _size _codepoints _clusters _clusterGap _script
      _advanceX primary).any glyphMissing = true :=
    (any_glyphMissing_iff _).mpr (hall primary (List.mem_cons_self _ _))
  have hcalls := shapeFont_calls E self _size _codepoints _clusters _clusterGap _script
    _advanceX primary []
  have hctx1 : ∀ g, contextOf E (TextShaper.shapeFont E self _size _codepoints _clusters
      _clusterGap _script primary _advanceX []).2.2 g = contextOf E self g :=
    fun g => contextOf_shapeFont E self _size _codepoints _clusters _clusterGap _script
      primary _advanceX [] g
  obtain ⟨gp2, s2, heq, hc2, hctx2⟩ := shapeFallbacks_all_fail E self _size _codepoints
    _clusters _clusterGap _script _advanceX fallbacks
    (TextShaper.shapeFont E self _size _codepoints _clusters _clusterGap _script primary
      _advanceX []).2.2
    (TextShaper.shapeFont E self _size _codepoints _clusters _clusterGap _script primary
      _advanceX []).2.1 hctx1 (fun g hg => hall g (List.mem_cons_of_mem _ hg))
  have h3 := attemptOutput_of_contextOf E s2 self _size _codepoints _clusters
    _clusterGap _script _advanceX primary hctx2 gp2
  have hcalls3 := shapeFont_calls E s2 _size _codepoints _clusters _clusterGap _script
    _advanceX primary gp2
  have hlen : (TextShaper.replaceMissingGlyphs E primary
      (attemptOutput E self _size _codepoints _clusters _clusterGap _script _advanceX
        primary)).length
      = (engineGlyphs E self _size _codepoints _clusters _clusterGap _script primary).length := by
    rw [replaceMissingGlyphs_eq]
    have : (attemptOutput E self _size _codepoints _clusters _clusterGap _script _advanceX
        primary).length
        = (engineGlyphs E self _size _codepoints _clusters _clusterGap _script primary).length := by
      unfold attemptOutput; rw [shapeFont_eq]; simp
    split <;> simp [this]
  have key : TextShaper.shape E self _script (primary, fallbacks) _advanceX _size _codepoints
      _clusters _clusterGap
      = (TextShaper.replaceMissingGlyphs E primary
          (attemptOutput E self _size _codepoints _clusters _clusterGap _script _advanceX
            primary),
         (TextShaper.shapeFont E s2 _size _codepoints _clusters _clusterGap _script primary
            _advanceX gp2).2.2) := by
    unfold TextShaper.shape
    generalize hres : TextShaper.shapeFont E self _size _codepoints _clusters _clusterGap
      _script primary _advanceX [] = res at hout hcalls heq hc2
    obtain ⟨b, o, t⟩ := res
    simp only at hout hcalls heq hc2
    have hb : b = false := by rw [hout.2, hany]; rfl
    subst hb
    simp only [hres, heq]
    rw [← h3.1]
  rw [key]
  refine ⟨rfl, hlen, ?_⟩
  simp only [hcalls3, hc2, hcalls]
  simp

/-- A worked instance: no font has a glyph, font `0` has the replacement glyph `3`;
both entries of the primary font's output are kept and carry glyph `3`. -/
theorem shape_degrades_to_primary_font_witness :
    (TextShaper.shape blankEngine freshShaper Script.Common (0, [1]) 8 2 [128512, 128513]
        [0, 1] 0).1
      = TextShaper.replaceMissingGlyphs blankEngine 0
          (attemptOutput blankEngine freshShaper 2 [128512, 128513] [0, 1] 0 Script.Common 8 0)
    ∧ (TextShaper.shape blankEngine freshShaper Script.Common (0, [1]) 8 2 [128512, 128513]
        [0, 1] 0).1.length
      = (engineGlyphs blankEngine freshShaper 2 [128512, 128513] [0, 1] 0 Script.Common
          0).length
    ∧ (TextShaper.shape blankEngine freshShaper Script.Common (0, [1]) 8 2 [128512, 128513]
        [0, 1] 0).2.shapeCalls = [] ++ (0 :: [1] ++ [0]) :=
  shape_degrades_to_primary_font blankEngine freshShaper Script.Common 0 [1] 8 2
    [128512, 128513] [0, 1] 0 (by decide)

/-! ## Missing-glyph substitution -/

/-- C3: with `r` the glyph index `replaceMissingGlyphs` looks up for U+FFFD in the given
font: if `r != 0` the result has the length of `L`, every entry keeps font, x, y and
cluster, an entry whose `glyphIndex` was `0` gets `glyphIndex = r`, every other entry
is unchanged, and no sentinel remains; if `r == 0` the list is returned as it was. -/
theorem replaceMissingGlyphs_overwrites_sentinels {F H : Type} (E : Engine F H) (_font : F)
    (L : GlyphPositionList F) :
    (E.FT_Get_Char_Index _font 0xFFFD ≠ 0 →
      (TextShaper.replaceMissingGlyphs E _font L).length = L.length
      ∧ (∀ i gp, L.get? i = some gp →
          ∃ gp2, (TextShaper.replaceMissingGlyphs E _font L).get? i = some gp2
            ∧ gp2.font = gp.font ∧ gp2.x = gp.x ∧ gp2.y = gp.y ∧ gp2.cluster = gp.cluster
            ∧ (gp.glyphIndex = 0 → gp2.glyphIndex = E.FT_Get_Char_Index _font 0xFFFD)
            ∧ (gp.glyphIndex ≠ 0 → gp2 = gp))
      ∧ (∀ gp2 ∈ TextShaper.replaceMissingGlyphs E _font L, gp2.glyphIndex ≠ 0))
    ∧ (E.FT_Get_Char_Index _font 0xFFFD = 0 →
        TextShaper.replaceMissingGlyphs E _font L = L) := by
  rw [replaceMissingGlyphs_eq]
  constructor
  · intro hr
    simp only [hr, ne_eq, not_false_eq_true, if_true]
    refine ⟨by simp, ?_, ?_⟩
    · intro i gp hi
      refine ⟨substituteGlyph (E.FT_Get_Char_Index _font 0xFFFD) gp, ?_, ?_⟩
      · rw [List.get?_eq_getElem?] at hi ⊢
        simp [List.getElem?_map, hi]
      · by_cases hm : gp.glyphIndex = 0
        · simp [substituteGlyph, glyphMissing, hm]
        · simp [substituteGlyph, glyphMissing, hm]
    · intro gp2 hmem
      obtain ⟨gp, _, rfl⟩ := List.mem_map.mp hmem
      by_cases hm : gp.glyphIndex = 0
      · simpa [substituteGlyph, glyphMissing, hm] using hr
      · simp [substituteGlyph, glyphMissing, hm]
  · intro hr
    simp [hr]

/-- A worked instance with replacement glyph `3` (font `0` of `sampleEngine`) and with
no replacement glyph (font `1`). -/
theorem replaceMissingGlyphs_overwrites_sentinels_witness :
    (TextShaper.replaceMissingGlyphs sampleEngine 0
        [⟨0, 10, 2, 0, 1⟩, ⟨0, 20, 0, 9, 2⟩]).length = 2
    ∧ (∀ gp2 ∈ TextShaper.replaceMissingGlyphs sampleEngine 0
        [⟨0, 10, 2, 0, 1⟩, ⟨0, 20, 0, 9, 2⟩], gp2.glyphIndex ≠ 0)
    ∧ TextShaper.replaceMissingGlyphs sampleEngine 1 [⟨1, 10, 2, 0, 1⟩, ⟨1, 20, 0, 9, 2⟩]
        = [⟨1, 10, 2, 0, 1⟩, ⟨1, 20, 0, 9, 2⟩] :=
  ⟨((replaceMissingGlyphs_overwrites_sentinels sampleEngine 0
        [⟨0, 10, 2, 0, 1⟩, ⟨0, 20, 0, 9, 2⟩]).1 (by decide)).1,
   ((replaceMissingGlyphs_overwrites_sentinels sampleEngine 0
        [⟨0, 10, 2, 0, 1⟩, ⟨0, 20, 0, 9, 2⟩]).1 (by decide)).2.2,
   (replaceMissingGlyphs_overwrites_sentinels sampleEngine 1
        [⟨1, 10, 2, 0, 1⟩, ⟨1, 20, 0, 9, 2⟩]).2 (by decide)⟩

/-! ## Positions of one shaping attempt -/

theorem shiftRight_six_eq_floor (v : Int) : v >>> (6 : Nat) = ⌊(v : ℚ) / 64⌋ := by
  rw [Int.shiftRight_eq_div_pow]
  have h := Rat.floor_intCast_div_natCast v 64
  simp only [Nat.cast_ofNat] at h
  rw [h]
  norm_num

theorem static_cast_int_of_lt (u : Nat) (h : u < 2 ^ 31) : static_cast_int u = (u : Int) := by
  have h32 : u % 2 ^ 32 = u := Nat.mod_eq_of_lt (by omega)
  unfold static_cast_int
  rw [h32, if_pos h]

theorem wrapInt_of_fits (i : Int) (hlo : -2 ^ 31 ≤ i) (hhi : i < 2 ^ 31) : wrapInt i = i := by
  unfold wrapInt
  omega

theorem wrapInt_wrapInt_add (a b : Int) : wrapInt (wrapInt a + b) = wrapInt (a + b) := by
  unfold wrapInt
  omega

theorem floor_div_64_fits (v : Int) (hlo : -2 ^ 31 ≤ v) (hhi : v < 2 ^ 31) :
    -2 ^ 31 ≤ ⌊(v : ℚ) / 64⌋ ∧ ⌊(v : ℚ) / 64⌋ < 2 ^ 31 := by
  rw [← shiftRight_six_eq_floor, Int.shiftRight_eq_div_pow]
  have h64 : ((2 ^ 6 : Nat) : Int) = 64 := by norm_num
  rw [h64]
  omega

/-- C9, as stated, fails: the position is computed in 32-bit `int`. An engine glyph at
cluster `300000000` with advance `10` is placed at `x = -1294967296`, not at
`300000000 * 10 = 3000000000`, and a glyph whose cluster word is `4294967295` gets
`cluster = -1` and `x = -10`. -/
theorem shapeFont_position_wraps_in_int :
    (TextShaper.shapeFont wideEngine freshShaper 1 [65] [0] 0 Script.Latin 0 10 []).2.1
      = [⟨0, -1294967296, 0, 7, 300000000⟩, ⟨0, -10, 0, 7, -1⟩]
    ∧ engineGlyphs wideEngine freshShaper 1 [65] [0] 0 Script.Latin 0
      = [⟨7, 300000000, 0, 0⟩, ⟨7, 4294967295, 0, 0⟩]
    ∧ (-1294967296 : Int) ≠ ((300000000 : Nat) : Int) * 10 + ⌊((0 : Int) : ℚ) / 64⌋
    ∧ (-1 : Int) ≠ ((4294967295 : Nat) : Int) := by
  refine ⟨by decide, by decide, ?_, by decide⟩
  rw [← shiftRight_six_eq_floor]
  decide

/-- C9, amended: one per-font attempt over the `n` glyphs the engine reports produces
exactly `n` entries in engine order; entry `i` references the attempted font and has
`glyphIndex = g_i`, `cluster` the engine's 32-bit cluster word `c_i` converted to
`int`, `x = cluster * advanceX + floor(xo_i / 64)` and `y = floor(yo_i / 64)` computed
in 32-bit `int`, also for negative offsets. Whenever `c_i < 2^31` and
`c_i * advanceX + floor(xo_i / 64)` fits an `int`, these are `cluster = c_i` and
`x = c_i * advanceX + floor(xo_i / 64)` exactly, and `y = floor(yo_i / 64)` exactly for
every 32-bit `yo_i`. The attempt returns `true` exactly when no `g_i` is `0`. -/
theorem shapeFont_positions {F H : Type} [DecidableEq F] (E : Engine F H)
    (self : TextShaper F H) (_size : Nat) (_codepoints : List Nat) (_clusters : List Int)
    (_clusterGap : Int) (_script : Script) (_font : F) (_advanceX : Int)
    (_result : GlyphPositionList F) :
    (TextShaper.shapeFont E self _size _codepoints _clusters _clusterGap _script _font
        _advanceX _result).2.1.length
      = (engineGlyphs E self _size _codepoints _clusters _clusterGap _script _font).length
    ∧ (∀ i g, (engineGlyphs E self _size _codepoints _clusters _clusterGap _script
          _font).get? i = some g →
        ∃ e, (TextShaper.shapeFont E self _size _codepoints _clusters _clusterGap _script
            _font _advanceX _result).2.1.get? i = some e
          ∧ e.font = _font
          ∧ e.glyphIndex = g.codepoint
          ∧ e.cluster = static_cast_int g.cluster
          ∧ e.x = wrapInt (wrapInt (e.cluster * _advanceX) + ⌊(g.x_offset : ℚ) / 64⌋)
          ∧ e.y = wrapInt ⌊(g.y_offset : ℚ) / 64⌋
          ∧ (g.cluster < 2 ^ 31 → e.cluster = (g.cluster : Int))
          ∧ (g.cluster < 2 ^ 31 →
              -2 ^ 31 ≤ (g.cluster : Int) * _advanceX + ⌊(g.x_offset : ℚ) / 64⌋ →
              (g.cluster : Int) * _advanceX + ⌊(g.x_offset : ℚ) / 64⌋ < 2 ^ 31 →
              e.x = (g.cluster : Int) * _advanceX + ⌊(g.x_offset : ℚ) / 64⌋)
          ∧ (-2 ^ 31 ≤ g.y_offset → g.y_offset < 2 ^ 31 →
              e.y = ⌊(g.y_offset : ℚ) / 64⌋))
    ∧ ((TextShaper.shapeFont E self _size _codepoints _clusters _clusterGap _script _font
        _advanceX _result).1 = true
      ↔ ∀ g ∈ engineGlyphs E self _size _codepoints _clusters _clusterGap _script _font,
          g.codepoint ≠ 0) := by
  rw [shapeFont_eq]
  refine ⟨by simp, ?_, ?_⟩
  · intro i g hi
    have hx : (renderGlyph _font _advanceX g).x
        = wrapInt (wrapInt (static_cast_int g.cluster * _advanceX)
            + ⌊(g.x_offset : ℚ) / 64⌋) := by
      simp [renderGlyph, shiftRight_six_eq_floor]
    have hy : (renderGlyph _font _advanceX g).y = wrapInt ⌊(g.y_offset : ℚ) / 64⌋ := by
      simp [renderGlyph, shiftRight_six_eq_floor]
    refine ⟨renderGlyph _font _advanceX g, ?_, rfl, rfl, rfl, hx, hy, ?_, ?_, ?_⟩
    · rw [List.get?_eq_getElem?] at hi ⊢
      simp [List.getElem?_map, hi]
    · intro hlt
      exact static_cast_int_of_lt _ hlt
    · intro hlt hlo hhi
      rw [hx, static_cast_int_of_lt _ hlt, wrapInt_wrapInt_add]
      exact wrapInt_of_fits _ hlo hhi
    · intro hlo hhi
      rw [hy]
      exact wrapInt_of_fits _ (floor_div_64_fits _ hlo hhi).1 (floor_div_64_fits _ hlo hhi).2
  · simp [List.any_eq_true, glyphMissing, renderGlyph]

/-- A worked instance with a negative x offset: the glyph reported at cluster `2` with
offsets `(-1, 64)` and advance `10` is placed at `x = 2 * 10 + floor(-1 / 64) = 19`
and `y = floor(64 / 64) = 1`. -/
theorem shapeFont_positions_witness :
    (TextShaper.shapeFont sampleEngine freshShaper 1 [65] [2] 0 Script.Latin 0 10 []).2.1
      = [⟨0, 19, 1, 7, 2⟩]
    ∧ (∃ e, (TextShaper.shapeFont sampleEngine freshShaper 1 [65] [2] 0 Script.Latin 0 10
          []).2.1.get? 0 = some e
        ∧ e.cluster = ((2 : Nat) : Int)
        ∧ e.x = ((2 : Nat) : Int) * 10 + ⌊((-1 : Int) : ℚ) / 64⌋
        ∧ e.y = ⌊((64 : Int) : ℚ) / 64⌋)
    ∧ (TextShaper.shapeFont sampleEngine freshShaper 1 [65] [2] 0 Script.Latin 0 10 []).1
      = true := by
  have h := shapeFont_positions sampleEngine freshShaper 1 [65] [2] 0 Script.Latin 0 10 []
  obtain ⟨e, he, _, _, _, _, _, hc, hx, hy⟩ := h.2.1 0 ⟨7, 2, -1, 64⟩ (by decide)
  refine ⟨by decide, ⟨e, he, hc (by decide), ?_, hy (by decide) (by decide)⟩,
    h.2.2.mpr (by decide)⟩
  apply hx (by decide)
  · rw [← shiftRight_six_eq_floor]; decide
  · rw [← shiftRight_six_eq_floor]; decide

/-! ## Pattern resolution -/

theorem all_range_getD_iff {α β : Type} [DecidableEq β] [Inhabited α] (f : α → β)
    (a b : List α) (hlen : a.length = b.length) :
    (List.range b.length).all (fun i => f (a.getD i default) == f (b.getD i default)) = true
      ↔ a.map f = b.map f := by
  simp only [List.all_eq_true, List.mem_range, beq_iff_eq]
  constructor
  · intro hall
    apply List.ext_getElem (by simp [hlen])
    intro i h1 h2
    simp only [List.length_map] at h1 h2
    have := hall i h2
    simpa [List.getD_eq_getElem?_getD, List.getElem?_eq_getElem h1,
      List.getElem?_eq_getElem h2] using this
  · intro hmap i hi
    have hi1 : i < a.length := by omega
    have h := congrArg (fun l => l[i]?) hmap
    simpa [List.getD_eq_getElem?_getD, List.getElem?_eq_getElem hi1,
      List.getElem?_eq_getElem hi] using h

theorem endsWithIgnoreCase_iff (_text _suffix : String) :
    endsWithIgnoreCase _text _suffix = true
      ↔ _suffix.length ≤ _text.length
        ∧ (_text.data.drop (_text.length - _suffix.length)).map Char.toLower
            = _suffix.data.map Char.toLower := by
  unfold endsWithIgnoreCase
  by_cases hlt : _text.length < _suffix.length
  · simp [hlt]
  · have hle : _suffix.length ≤ _text.length := Nat.le_of_not_lt hlt
    have hlen : (_text.data.drop (_text.length - _suffix.length)).length
        = _suffix.data.length := by
      simp only [List.length_drop, String.length] at hle ⊢
      omega
    have key := all_range_getD_iff Char.toLower
      (_text.data.drop (_text.length - _suffix.length)) _suffix.data hlen
    simp only [hlt, if_false, tolower]
    simp only [String.length] at key ⊢
    rw [key]
    simp [hle]

theorem endsWithIgnoreCase_four (pattern suffix : String) (h4 : suffix.length = 4) :
    endsWithIgnoreCase pattern suffix = lastFourMatch pattern suffix := by
  have h := endsWithIgnoreCase_iff pattern suffix
  rw [h4] at h
  cases hb : lastFourMatch pattern suffix with
  | true =>
    rw [h]
    simpa [lastFourMatch] using hb
  | false =>
    cases he : endsWithIgnoreCase pattern suffix with
    | false => rfl
    | true =>
      have := h.mp he
      have hb2 : lastFourMatch pattern suffix = true := by simpa [lastFourMatch] using this
      rw [hb] at hb2
      exact absurd hb2 (by decide)

theorem getFontFilePaths_eq (platformMatcher : String → List String) (pattern : String) :
    getFontFilePaths platformMatcher pattern
      = if lastFourMatch pattern ".ttf" || lastFourMatch pattern ".otf" then [pattern]
        else platformMatcher pattern := by
  unfold getFontFilePaths
  rw [endsWithIgnoreCase_four pattern ".ttf" (by decide),
    endsWithIgnoreCase_four pattern ".otf" (by decide)]

/-! ## The font loader -/

theorem indexLoop_eq {α σ : Type} (l : List α) (g : σ → α → σ) :
    ∀ (n k : Nat) (a0 : σ), indexLoop l k n g a0 = ((l.drop k).take n).foldl g a0 := by
  intro n
  unfold indexLoop
  induction n with
  | zero => intro k a0; simp
  | succ n ih =>
    intro k a0
    rw [List.range'_succ, List.foldl_cons, ih]
    by_cases hk : k < l.length
    · have hget : l.get? k = some l[k] := by
        rw [List.get?_eq_getElem?]; exact List.getElem?_eq_getElem hk
      have hd := List.drop_eq_getElem_cons hk
      rw [hget]
      conv_rhs => rw [hd]
      rw [List.take_succ_cons, List.foldl_cons]
    · have hle : l.length ≤ k := Nat.le_of_not_lt hk
      have hget : l.get? k = none := by
        rw [List.get?_eq_getElem?]; exact List.getElem?_eq_none_iff.mpr hle
      rw [hget, List.drop_of_length_le hle, List.drop_of_length_le (Nat.le_succ_of_le hle)]
      simp

theorem loadFallbacks_eq (ft : FreeType) (filePaths : List String) (_fontSize : Int)
    (self : FontLoader) :
    FontLoader.loadFallbacks ft filePaths _fontSize self
      = filePaths.tail.foldl (FontLoader.loadFallback ft _fontSize) ([], self) := by
  have h := indexLoop_eq filePaths (FontLoader.loadFallback ft _fontSize)
    (filePaths.length - 1) 1 ([], self)
  have htail : (filePaths.drop 1).take (filePaths.length - 1) = filePaths.tail := by
    rw [List.drop_one]
    apply List.take_of_length_le
    simp
  rw [htail] at h
  unfold FontLoader.loadFallbacks
  exact h

theorem find_updateFound (_path q : String) (f : Font → Font) (l : List (String × Font)) :
    ((FontLoader.updateFound _path f l).find? (fun e => decide (e.1 = q))).map Prod.snd
      = if q = _path then ((l.find? (fun e => decide (e.1 = q))).map Prod.snd).map f
        else (l.find? (fun e => decide (e.1 = q))).map Prod.snd := by
  induction l with
  | nil => simp [FontLoader.updateFound]
  | cons e rest ih =>
    unfold FontLoader.updateFound
    by_cases he : e.1 = _path
    · by_cases hq : q = _path
      · subst hq; simp [he, List.find?]
      · have : ¬ _path = q := fun h => hq h.symm
        have h2 : ¬ e.1 = q := by rw [he]; exact this
        simp [he, hq, this, List.find?]
    · by_cases hq : e.1 = q
      · have : ¬ q = _path := by rw [← hq]; exact he
        simp [he, hq, this, List.find?]
      · simp only [he, if_false, List.find?, hq, decide_False]
        exact ih

theorem keys_updateFound (_path : String) (f : Font → Font) (l : List (String × Font)) :
    (FontLoader.updateFound _path f l).map Prod.fst = l.map Prod.fst := by
  induction l with
  | nil => simp [FontLoader.updateFound]
  | cons e rest ih =>
    unfold FontLoader.updateFound
    by_cases he : e.1 = _path
    · simp [he]
    · simp [he, ih]

theorem find_isSome_iff_mem_keys (self : FontLoader) (q : String) :
    (self.find q).isSome = true ↔ q ∈ self.fonts_.map Prod.fst := by
  unfold FontLoader.find
  simp only [Option.isSome_map', List.find?_isSome, decide_eq_true_eq, List.mem_map]

theorem find_eq_none_iff (self : FontLoader) (q : String) :
    self.find q = none ↔ q ∉ self.fonts_.map Prod.fst := by
  have h := find_isSome_iff_mem_keys self q
  cases hf : self.find q with
  | none => rw [hf] at h; simpa using h
  | some f => rw [hf] at h; simpa using h

theorem loadFromFilePath_fst (ft : FreeType) (self : FontLoader) (_path : String)
    (_fontSize : Int) :
    (FontLoader.loadFromFilePath ft self _path _fontSize).1
      = if FontLoader.loadable ft self _fontSize _path = true then some _path else none := by
  unfold FontLoader.loadFromFilePath FontLoader.loadable
  cases hfind : self.find _path with
  | some k =>
    by_cases hsize : k.fontSize ≠ _fontSize
    · simp [hsize]
    · simp [hsize]
  | none =>
    cases hface : ft.loadFace _path _fontSize <;> simp

theorem loadFromFilePath_keys (ft : FreeType) (self : FontLoader) (_path : String)
    (_fontSize : Int) :
    (FontLoader.loadFromFilePath ft self _path _fontSize).2.fonts_.map Prod.fst
      = if (self.find _path).isSome = false ∧ (ft.loadFace _path _fontSize).isSome = true
        then self.fonts_.map Prod.fst ++ [_path] else self.fonts_.map Prod.fst := by
  unfold FontLoader.loadFromFilePath
  cases hfind : self.find _path with
  | some k =>
    by_cases hsize : k.fontSize ≠ _fontSize
    · simp [hsize, keys_updateFound]
    · simp [hsize]
  | none =>
    cases hface : ft.loadFace _path _fontSize <;> simp

theorem loadFromFilePath_find_isSome (ft : FreeType) (self : FontLoader) (_path : String)
    (_fontSize : Int) (q : String) :
    ((FontLoader.loadFromFilePath ft self _path _fontSize).2.find q).isSome = true
      ↔ (self.find q).isSome = true
        ∨ (q = _path ∧ (ft.loadFace _path _fontSize).isSome = true) := by
  rw [find_isSome_iff_mem_keys, loadFromFilePath_keys, find_isSome_iff_mem_keys]
  by_cases hc : (self.find _path).isSome = false ∧ (ft.loadFace _path _fontSize).isSome = true
  · simp only [hc, and_self, if_true, List.mem_append, List.mem_singleton]
    simp
  · simp only [hc, if_false]
    constructor
    · exact Or.inl
    · rintro (h | ⟨rfl, hface⟩)
      · exact h
      · rw [not_and_or] at hc
        rcases hc with hc | hc
        · rw [← find_isSome_iff_mem_keys]
          cases hs : (self.find q).isSome with
          | true => rfl
          | false => exact absurd hs hc
        · exact absurd hface hc

theorem loadable_loadFromFilePath (ft : FreeType) (self : FontLoader) (_path : String)
    (_fontSize : Int) (q : String) :
    FontLoader.loadable ft (FontLoader.loadFromFilePath ft self _path _fontSize).2 _fontSize q
      = FontLoader.loadable ft self _fontSize q := by
  have h := loadFromFilePath_find_isSome ft self _path _fontSize q
  unfold FontLoader.loadable
  cases h1 : ((FontLoader.loadFromFilePath ft self _path _fontSize).2.find q).isSome with
  | true =>
    rcases h.mp h1 with h2 | ⟨rfl, h2⟩
    · simp [h2]
    · simp [h2]
  | false =>
    cases h2 : (self.find q).isSome with
    | false => rfl
    | true =>
      have := h.mpr (Or.inl h2)
      rw [h1] at this
      exact absurd this (by decide)

theorem wellFormed_new : FontLoader.WellFormed FontLoader.new := by
  simp [FontLoader.WellFormed, FontLoader.new]

theorem mem_updateFound (_path : String) (f : Font → Font) (l : List (String × Font))
    (e : String × Font) (he : e ∈ FontLoader.updateFound _path f l) :
    e ∈ l ∨ ∃ e0 ∈ l, e = (e0.1, f e0.2) := by
  induction l with
  | nil => simp [FontLoader.updateFound] at he
  | cons a rest ih =>
    unfold FontLoader.updateFound at he
    by_cases ha : a.1 = _path
    · simp only [ha, if_true, List.mem_cons] at he
      rcases he with he | he
      · exact Or.inr ⟨a, List.mem_cons_self _ _, by rw [he, ha]⟩
      · exact Or.inl (List.mem_cons_of_mem _ he)
    · simp only [ha, if_false, List.mem_cons] at he
      rcases he with he | he
      · exact Or.inl (by rw [he]; exact List.mem_cons_self _ _)
      · rcases ih he with h | ⟨e0, h0, h1⟩
        · exact Or.inl (List.mem_cons_of_mem _ h)
        · exact Or.inr ⟨e0, List.mem_cons_of_mem _ h0, h1⟩

theorem wellFormed_loadFromFilePath (ft : FreeType) (self : FontLoader) (_path : String)
    (_fontSize : Int) (hwf : self.WellFormed) :
    (FontLoader.loadFromFilePath ft self _path _fontSize).2.WellFormed := by
  obtain ⟨hnodup, hkeys⟩ := hwf
  refine ⟨?_, ?_⟩
  · rw [loadFromFilePath_keys]
    by_cases hc : (self.find _path).isSome = false ∧ (ft.loadFace _path _fontSize).isSome = true
    · simp only [hc, and_self, if_true]
      have hnot : _path ∉ self.fonts_.map Prod.fst := by
        rw [← find_eq_none_iff]
        simpa using hc.1
      rw [List.nodup_append]
      refine ⟨hnodup, List.nodup_singleton _, ?_⟩
      intro a ha hb
      rw [List.mem_singleton] at hb
      subst hb
      exact hnot ha
    · simp only [hc, if_false]
      exact hnodup
  · unfold FontLoader.loadFromFilePath
    cases hfind : self.find _path with
    | some k =>
      by_cases hsize : k.fontSize ≠ _fontSize
      · simp only [hsize, ne_eq, not_false_eq_true, if_true]
        intro e he
        rcases mem_updateFound _ _ _ _ he with h | ⟨e0, h0, h1⟩
        · exact hkeys e h
        · rw [h1]
          exact hkeys e0 h0
      · simp only [hsize, if_false]
        exact hkeys
    | none =>
      cases hface : ft.loadFace _path _fontSize with
      | none => exact hkeys
      | some face =>
        intro e he
        simp only [List.mem_append, List.mem_singleton] at he
        rcases he with he | he
        · exact hkeys e he
        · rw [he]; rfl

theorem find_filePath_of_wellFormed (self : FontLoader) (hwf : self.WellFormed) (q : String)
    (f : Font) (hfind : self.find q = some f) : f.filePath = q := by
  unfold FontLoader.find at hfind
  cases hq : List.find? (fun e => decide (e.1 = q)) self.fonts_ with
  | none => rw [hq] at hfind; simp at hfind
  | some e =>
    rw [hq] at hfind
    simp only [Option.map_some', Option.some.injEq] at hfind
    have hmem := List.mem_of_find?_eq_some hq
    have hkey := List.find?_some hq
    simp only [decide_eq_true_eq] at hkey
    rw [← hfind, hwf.2 e hmem, hkey]

theorem wellFormed_afterCalls (ft : FreeType) (requests : List (String × Int)) :
    (FontLoader.afterCalls ft requests).WellFormed := by
  unfold FontLoader.afterCalls
  have gen : ∀ (rs : List (String × Int)) (s : FontLoader), s.WellFormed →
      (rs.foldl (fun self r => (FontLoader.loadFromFilePath ft self r.1 r.2).2) s).WellFormed := by
    intro rs
    induction rs with
    | nil => intro s hs; exact hs
    | cons r rs ih =>
      intro s hs
      exact ih _ (wellFormed_loadFromFilePath ft s r.1 r.2 hs)
  exact gen requests _ wellFormed_new

theorem loadFallback_eq (ft : FreeType) (_fontSize : Int) (acc : List FontRef)
    (self : FontLoader) (path : String) :
    FontLoader.loadFallback ft _fontSize (acc, self) path
      = (if FontLoader.loadable ft self _fontSize path = true then acc ++ [path] else acc,
         (FontLoader.loadFromFilePath ft self path _fontSize).2) := by
  unfold FontLoader.loadFallback
  have h := loadFromFilePath_fst ft self path _fontSize
  generalize FontLoader.loadFromFilePath ft self path _fontSize = res at h
  obtain ⟨r, s1⟩ := res
  simp only at h
  subst h
  by_cases hl : FontLoader.loadable ft self _fontSize path = true <;> simp [hl]

theorem foldl_loadFallback (ft : FreeType) (_fontSize : Int) :
    ∀ (rest : List String) (acc : List FontRef) (self : FontLoader),
    ∃ self2, rest.foldl (FontLoader.loadFallback ft _fontSize) (acc, self)
        = (acc ++ rest.filter (fun p => FontLoader.loadable ft self _fontSize p), self2)
      ∧ (∀ q, FontLoader.loadable ft self2 _fontSize q = FontLoader.loadable ft self _fontSize q)
      ∧ (∀ q, (self.find q).isSome = true → (self2.find q).isSome = true)
      ∧ (∀ q ∈ rest.filter (fun p => FontLoader.loadable ft self _fontSize p),
          (self2.find q).isSome = true)
      ∧ (self.WellFormed → self2.WellFormed) := by
  intro rest
  induction rest with
  | nil =>
    intro acc self
    exact ⟨self, by simp, fun _ => rfl, fun _ h => h, by simp, fun h => h⟩
  | cons p rest ih =>
    intro acc self
    obtain ⟨self2, heq, hload, hmono, hmem, hwf⟩ := ih
      (if FontLoader.loadable ft self _fontSize p = true then acc ++ [p] else acc)
      (FontLoader.loadFromFilePath ft self p _fontSize).2
    have hl1 : ∀ q, FontLoader.loadable ft (FontLoader.loadFromFilePath ft self p _fontSize).2
        _fontSize q = FontLoader.loadable ft self _fontSize q :=
      fun q => loadable_loadFromFilePath ft self p _fontSize q
    have hfilter : rest.filter (fun q => FontLoader.loadable ft
        (FontLoader.loadFromFilePath ft self p _fontSize).2 _fontSize q)
        = rest.filter (fun q => FontLoader.loadable ft self _fontSize q) := by
      congr 1; funext q; exact hl1 q
    rw [hfilter] at heq hmem
    have hstep : ∀ q, (self.find q).isSome = true →
        ((FontLoader.loadFromFilePath ft self p _fontSize).2.find q).isSome = true :=
      fun q h => (loadFromFilePath_find_isSome ft self p _fontSize q).mpr (Or.inl h)
    refine ⟨self2, ?_, ?_, ?_, ?_, ?_⟩
    · rw [List.foldl_cons, loadFallback_eq, heq]
      by_cases hl : FontLoader.loadable ft self _fontSize p = true
      · simp [hl, List.filter_cons]
      · simp [hl, List.filter_cons]
    · intro q; rw [hload, hl1]
    · intro q h; exact hmono q (hstep q h)
    · intro q hq
      rw [List.filter_cons] at hq
      by_cases hl : FontLoader.loadable ft self _fontSize p = true
      · simp only [hl, if_true, List.mem_cons] at hq
        rcases hq with hq | hq
        · subst hq
          apply hmono
          rw [loadFromFilePath_find_isSome]
          unfold FontLoader.loadable at hl
          cases hs : (self.find q).isSome with
          | true => exact Or.inl rfl
          | false =>
            rw [hs] at hl
            exact Or.inr ⟨rfl, by simpa using hl⟩
        · exact hmem q hq
      · simp only [hl] at hq
        exact hmem q hq
    · intro h
      exact hwf (wellFormed_loadFromFilePath ft self p _fontSize h)

theorem load_of_no_candidates (platformMatcher : String → List String) (ft : FreeType)
    (self : FontLoader) (_fontPattern : String) (_fontSize : Int)
    (hpaths : getFontFilePaths platformMatcher _fontPattern = []) :
    FontLoader.load platformMatcher ft self _fontPattern _fontSize
      = (Outcome.undefinedBehavior, self) := by
  unfold FontLoader.load
  simp [hpaths]

/-- C4: on a system whose matcher finds no font file for the pattern `serif`,
`FontLoader::load` does not throw: `getFontFilePaths` returns the empty vector and the
call is `filePaths.front()` on it, which is undefined behaviour; no error is raised
and the loader is unchanged. -/
theorem load_without_candidates_is_undefined :
    getFontFilePaths sampleMatcher "serif" = []
    ∧ FontLoader.load sampleMatcher sampleFreeType FontLoader.new "serif" 12
        = (Outcome.undefinedBehavior, FontLoader.new)
    ∧ ∀ what, (FontLoader.load sampleMatcher sampleFreeType FontLoader.new "serif" 12).1
        ≠ Outcome.thrown what := by
  have hpaths : getFontFilePaths sampleMatcher "serif" = [] := by decide
  have h := load_of_no_candidates sampleMatcher sampleFreeType FontLoader.new "serif" 12 hpaths
  refine ⟨hpaths, h, ?_⟩
  intro what
  rw [h]
  simp

/-- C5: when the first candidate is not cached and cannot be opened, `FontLoader::load`
throws (whatever the later candidates are), `Font::loadFace` has been called for the
first candidate only, and the map `fonts_` is as it was before the call. -/
theorem load_throws_when_primary_fails (platformMatcher : String → List String)
    (ft : FreeType) (self : FontLoader) (_fontPattern : String) (_fontSize : Int)
    (p0 : String) (rest : List String)
    (hpaths : getFontFilePaths platformMatcher _fontPattern = p0 :: rest)
    (hcached : self.find p0 = none)
    (hopen : ft.loadFace p0 _fontSize = none) :
    (∃ what, (FontLoader.load platformMatcher ft self _fontPattern _fontSize).1
        = Outcome.thrown what)
    ∧ (FontLoader.load platformMatcher ft self _fontPattern _fontSize).2.fonts_ = self.fonts_
    ∧ (FontLoader.load platformMatcher ft self _fontPattern _fontSize).2.loadFaceCalls
        = self.loadFaceCalls ++ [p0] := by
  unfold FontLoader.load
  simp only [hpaths, List.head?_cons]
  unfold FontLoader.loadFromFilePath
  simp only [hcached, hopen]
  exact ⟨⟨_, rfl⟩, trivial, trivial⟩

/-- A worked instance: the matcher ranks `b.ttf`, which does not open, before
`a.ttf`, which would. -/
theorem load_throws_when_primary_fails_witness :
    (∃ what, (FontLoader.load (fun _ => ["b.ttf", "a.ttf"]) sampleFreeType FontLoader.new
        "mono" 12).1 = Outcome.thrown what)
    ∧ (FontLoader.load (fun _ => ["b.ttf", "a.ttf"]) sampleFreeType FontLoader.new
        "mono" 12).2.fonts_ = FontLoader.new.fonts_
    ∧ (FontLoader.load (fun _ => ["b.ttf", "a.ttf"]) sampleFreeType FontLoader.new
        "mono" 12).2.loadFaceCalls = FontLoader.new.loadFaceCalls ++ ["b.ttf"] :=
  load_throws_when_primary_fails (fun _ => ["b.ttf", "a.ttf"]) sampleFreeType FontLoader.new
    "mono" 12 "b.ttf" ["a.ttf"] (by decide) (by decide) (by decide)

/-- C6: for a candidate list `p0 :: rest` whose primary `p0` loads, `FontLoader::load`
returns the handle of `p0` as primary and, as fallbacks, the handles of exactly those
candidates of `rest` that can be loaded, in the order of `rest`; every returned handle
refers to a font whose file path is the candidate it was loaded for. -/
theorem load_returns_primary_and_loadable_fallbacks (platformMatcher : String → List String)
    (ft : FreeType) (requests : List (String × Int)) (_fontPattern : String)
    (_fontSize : Int) (p0 : String) (rest : List String)
    (hpaths : getFontFilePaths platformMatcher _fontPattern = p0 :: rest)
    (hprimary : FontLoader.loadable ft (FontLoader.afterCalls ft requests) _fontSize p0 = true) :
    (FontLoader.load platformMatcher ft (FontLoader.afterCalls ft requests) _fontPattern
        _fontSize).1
      = Outcome.returned (p0, rest.filter
          (fun p => FontLoader.loadable ft (FontLoader.afterCalls ft requests) _fontSize p))
    ∧ (∀ q ∈ p0 :: rest.filter
          (fun p => FontLoader.loadable ft (FontLoader.afterCalls ft requests) _fontSize p),
        ((FontLoader.load platformMatcher ft (FontLoader.afterCalls ft requests) _fontPattern
          _fontSize).2.find q).map Font.filePath = some q) := by
  have hwf := wellFormed_afterCalls ft requests
  generalize FontLoader.afterCalls ft requests = self at hprimary hwf ⊢
  have hfst := loadFromFilePath_fst ft self p0 _fontSize
  rw [if_pos hprimary] at hfst
  have hwf1 := wellFormed_loadFromFilePath ft self p0 _fontSize hwf
  have hp0 : ((FontLoader.loadFromFilePath ft self p0 _fontSize).2.find p0).isSome = true := by
    rw [loadFromFilePath_find_isSome]
    unfold FontLoader.loadable at hprimary
    cases hs : (self.find p0).isSome with
    | true => exact Or.inl rfl
    | false =>
      rw [hs] at hprimary
      exact Or.inr ⟨rfl, by simpa using hprimary⟩
  obtain ⟨self2, heq, _, hmono, hmem, hwf2⟩ := foldl_loadFallback ft _fontSize rest []
    (FontLoader.loadFromFilePath ft self p0 _fontSize).2
  have hfilter : rest.filter (fun q => FontLoader.loadable ft
      (FontLoader.loadFromFilePath ft self p0 _fontSize).2 _fontSize q)
      = rest.filter (fun q => FontLoader.loadable ft self _fontSize q) := by
    congr 1; funext q; exact loadable_loadFromFilePath ft self p0 _fontSize q
  rw [hfilter] at heq hmem
  have key : FontLoader.load platformMatcher ft self _fontPattern _fontSize
      = (Outcome.returned (p0, rest.filter (fun p => FontLoader.loadable ft self _fontSize p)),
         self2) := by
    unfold FontLoader.load
    simp only [hpaths, List.head?_cons]
    generalize hres : FontLoader.loadFromFilePath ft self p0 _fontSize = res at hfst heq
    obtain ⟨r, s1⟩ := res
    simp only at hfst heq
    subst hfst
    simp only [loadFallbacks_eq, List.tail_cons, heq, List.nil_append]
  rw [key]
  refine ⟨rfl, ?_⟩
  intro q hq
  have hsome : (self2.find q).isSome = true := by
    rcases List.mem_cons.mp hq with hq | hq
    · subst hq; exact hmono _ hp0
    · exact hmem q hq
  cases hf : self2.find q with
  | none => rw [hf] at hsome; exact absurd hsome (by decide)
  | some f =>
    simp only [Option.map_some', Option.some.injEq]
    exact find_filePath_of_wellFormed self2 (hwf2 hwf1) q f hf

/-- A worked instance: of the candidates `a.ttf`, `b.ttf`, `c.otf` the second does not
open; the fallback list is `c.otf` alone. -/
theorem load_returns_primary_and_loadable_fallbacks_witness :
    (FontLoader.load sampleMatcher sampleFreeType (FontLoader.afterCalls sampleFreeType [])
        "mono" 12).1 = Outcome.returned ("a.ttf", ["c.otf"]) := by
  have h := (load_returns_primary_and_loadable_fallbacks sampleMatcher sampleFreeType []
    "mono" 12 "a.ttf" ["b.ttf", "c.otf"] (by decide) (by decide)).1
  rw [h]
  decide

/-- C8: a pattern whose last four characters are `.ttf` or `.otf`, compared
case-insensitively, resolves to the one-element list of the pattern itself, whatever
the platform matcher is, and a `load` of it that returns has the pattern as primary
handle and an empty fallback list; any other pattern, in particular one of fewer than
four characters, is handed to the platform matcher. -/
theorem getFontFilePaths_of_font_file_pattern (platformMatcher : String → List String)
    (ft : FreeType) (self : FontLoader) (_fontPattern : String) (_fontSize : Int) :
    ((lastFourMatch _fontPattern ".ttf" = true ∨ lastFourMatch _fontPattern ".otf" = true) →
      (∀ matcher : String → List String, getFontFilePaths matcher _fontPattern = [_fontPattern])
      ∧ (∀ fonts self2, FontLoader.load platformMatcher ft self _fontPattern _fontSize
            = (Outcome.returned fonts, self2) → fonts = (_fontPattern, [])))
    ∧ (¬ (lastFourMatch _fontPattern ".ttf" = true ∨ lastFourMatch _fontPattern ".otf" = true) →
        getFontFilePaths platformMatcher _fontPattern = platformMatcher _fontPattern)
    ∧ (_fontPattern.length < 4 →
        getFontFilePaths platformMatcher _fontPattern = platformMatcher _fontPattern) := by
  refine ⟨?_, ?_, ?_⟩
  · intro hfile
    have hpaths : ∀ matcher : String → List String,
        getFontFilePaths matcher _fontPattern = [_fontPattern] := by
      intro matcher
      rw [getFontFilePaths_eq]
      rcases hfile with h | h <;> simp [h]
    refine ⟨hpaths, ?_⟩
    intro fonts self2 hload
    unfold FontLoader.load at hload
    simp only [hpaths platformMatcher, List.head?_cons] at hload
    have hfst := loadFromFilePath_fst ft self _fontPattern _fontSize
    generalize hres : FontLoader.loadFromFilePath ft self _fontPattern _fontSize = res
      at hfst hload
    obtain ⟨r, s1⟩ := res
    simp only at hfst
    by_cases hl : FontLoader.loadable ft self _fontSize _fontPattern = true
    · rw [if_pos hl] at hfst
      subst hfst
      simp only [loadFallbacks_eq, List.tail_cons, List.foldl_nil, Prod.mk.injEq,
        Outcome.returned.injEq] at hload
      exact hload.1.symm
    · rw [if_neg hl] at hfst
      subst hfst
      simp at hload
  · intro hnot
    rw [getFontFilePaths_eq]
    rw [not_or] at hnot
    simp [hnot.1, hnot.2]
  · intro hshort
    rw [getFontFilePaths_eq]
    have h1 : lastFourMatch _fontPattern ".ttf" = false := by
      unfold lastFourMatch
      simp [Nat.not_le.mpr hshort]
    have h2 : lastFourMatch _fontPattern ".otf" = false := by
      unfold lastFourMatch
      simp [Nat.not_le.mpr hshort]
    simp [h1, h2]

/-- A worked instance: `Hack.TTF` names a file, `ttf` and `mono` do not. -/
theorem getFontFilePaths_of_font_file_pattern_witness :
    (∀ matcher : String → List String, getFontFilePaths matcher "Hack.TTF" = ["Hack.TTF"])
    ∧ getFontFilePaths sampleMatcher "mono" = sampleMatcher "mono"
    ∧ getFontFilePaths sampleMatcher "ttf" = sampleMatcher "ttf" :=
  ⟨((getFontFilePaths_of_font_file_pattern sampleMatcher sampleFreeType FontLoader.new
      "Hack.TTF" 12).1 (Or.inl (by decide))).1,
   (getFontFilePaths_of_font_file_pattern sampleMatcher sampleFreeType FontLoader.new
      "mono" 12).2.1 (by decide),
   (getFontFilePaths_of_font_file_pattern sampleMatcher sampleFreeType FontLoader.new
      "ttf" 12).2.2 (by decide)⟩

/-! ## The cache of the font loader -/

theorem find_loadFromFilePath_of_ne (ft : FreeType) (self : FontLoader) (_path : String)
    (_fontSize : Int) (q : String) (hq : q ≠ _path) :
    (FontLoader.loadFromFilePath ft self _path _fontSize).2.find q = self.find q := by
  unfold FontLoader.loadFromFilePath
  cases hfind : self.find _path with
  | some k =>
    by_cases hsize : k.fontSize ≠ _fontSize
    · simp only [hsize, ne_eq, not_false_eq_true, if_true, FontLoader.find]
      rw [find_updateFound]
      simp [hq]
    · simp only [hsize, if_false]
  | none =>
    have hne : ¬ _path = q := fun h => hq h.symm
    cases hface : ft.loadFace _path _fontSize with
    | none => rfl
    | some face =>
      simp only [FontLoader.find, List.find?_append]
      cases hl : List.find? (fun e => decide (e.1 = q)) self.fonts_ with
      | some e => simp
      | none => simp [List.find?, hne]

theorem find_loadFromFilePath_self (ft : FreeType) (self : FontLoader) (_path : String)
    (_fontSize : Int) :
    (FontLoader.loadFromFilePath ft self _path _fontSize).2.find _path
      = match self.find _path with
        | some k => some (if k.fontSize ≠ _fontSize then k.setFontSize ft _fontSize else k)
        | none => (ft.loadFace _path _fontSize).map
            (fun face => Font.create ft face _fontSize _path) := by
  unfold FontLoader.loadFromFilePath
  cases hfind : self.find _path with
  | some k =>
    by_cases hsize : k.fontSize ≠ _fontSize
    · simp only [hsize, ne_eq, not_false_eq_true, if_true]
      have h := find_updateFound _path _path (fun font => font.setFontSize ft _fontSize)
        self.fonts_
      simp only [if_true] at h
      unfold FontLoader.find at hfind ⊢
      simp only []
      rw [h, hfind]
      rfl
    · simp only [hsize, if_false]
      exact hfind
  | none =>
    cases hface : ft.loadFace _path _fontSize with
    | none => simpa using hfind
    | some face =>
      unfold FontLoader.find at hfind ⊢
      simp only [Option.map_eq_none'] at hfind
      simp [List.find?_append, hfind, List.find?]

theorem fontSize_resized (ft : FreeType) (f : Font) (size : Int) :
    (if f.fontSize ≠ size then f.setFontSize ft size else f).fontSize = size := by
  by_cases h : f.fontSize ≠ size
  · rw [if_pos h]; rfl
  · rw [if_neg h]; exact not_not.mp h

theorem hashCode_resized (ft : FreeType) (f : Font) (size : Int) :
    (if f.fontSize ≠ size then f.setFontSize ft size else f).hashCode = f.hashCode := by
  by_cases h : f.fontSize ≠ size
  · rw [if_pos h]; rfl
  · rw [if_neg h]

theorem filePath_resized (ft : FreeType) (f : Font) (size : Int) :
    (if f.fontSize ≠ size then f.setFontSize ft size else f).filePath = f.filePath := by
  by_cases h : f.fontSize ≠ size
  · rw [if_pos h]; rfl
  · rw [if_neg h]

theorem afterCalls_append (ft : FreeType) (requests later : List (String × Int)) :
    FontLoader.afterCalls ft (requests ++ later)
      = later.foldl (fun self r => (FontLoader.loadFromFilePath ft self r.1 r.2).2)
          (FontLoader.afterCalls ft requests) := by
  unfold FontLoader.afterCalls
  rw [List.foldl_append]

theorem find_foldl_of_ne (ft : FreeType) (q : String) :
    ∀ (later : List (String × Int)) (self : FontLoader), (∀ r ∈ later, r.1 ≠ q) →
      (later.foldl (fun self r => (FontLoader.loadFromFilePath ft self r.1 r.2).2) self).find q
        = self.find q := by
  intro later
  induction later with
  | nil => intro self _; rfl
  | cons r later ih =>
    intro self hne
    rw [List.foldl_cons, ih _ (fun r2 h2 => hne r2 (List.mem_cons_of_mem _ h2))]
    exact find_loadFromFilePath_of_ne ft self r.1 r.2 q
      (fun h => hne r (List.mem_cons_self _ _) h.symm)

/-- C7: after any sequence of `loadFromFilePath` calls the map holds at most one font
per file path. A call for a path that is cached returns the existing handle and adds
no entry; the font then has the requested size, the hash and file path it had before,
and, when the requested size is its current size, nothing at all is modified; the
entries of other paths are untouched, so a cached font has the size of the most
recent request for its path. -/
theorem loadFromFilePath_keeps_one_font_per_path (ft : FreeType)
    (requests : List (String × Int)) :
    ((FontLoader.afterCalls ft requests).fonts_.map Prod.fst).Nodup
    ∧ (∀ (path : String) (size : Int) (f : Font),
        (FontLoader.afterCalls ft requests).find path = some f →
        (FontLoader.loadFromFilePath ft (FontLoader.afterCalls ft requests) path size).1
          = some path
        ∧ (FontLoader.loadFromFilePath ft (FontLoader.afterCalls ft requests) path
            size).2.fonts_.map Prod.fst
          = (FontLoader.afterCalls ft requests).fonts_.map Prod.fst
        ∧ (∃ f2, (FontLoader.loadFromFilePath ft (FontLoader.afterCalls ft requests) path
              size).2.find path = some f2
            ∧ f2.fontSize = size ∧ f2.hashCode = f.hashCode ∧ f2.filePath = f.filePath)
        ∧ (f.fontSize = size →
            (FontLoader.loadFromFilePath ft (FontLoader.afterCalls ft requests) path size).2
              = FontLoader.afterCalls ft requests)
        ∧ (∀ q, q ≠ path →
            (FontLoader.loadFromFilePath ft (FontLoader.afterCalls ft requests) path
              size).2.find q = (FontLoader.afterCalls ft requests).find q))
    ∧ (∀ (path : String) (size : Int) (later : List (String × Int)) (f : Font),
        (∀ r ∈ later, r.1 ≠ path) →
        (FontLoader.afterCalls ft (requests ++ (path, size) :: later)).find path = some f →
        f.fontSize = size) := by
  refine ⟨(wellFormed_afterCalls ft requests).1, ?_, ?_⟩
  · intro path size f hfind
    generalize FontLoader.afterCalls ft requests = self at hfind ⊢
    have hself := find_loadFromFilePath_self ft self path size
    rw [hfind] at hself
    simp only at hself
    refine ⟨?_, ?_, ?_, ?_, ?_⟩
    · rw [loadFromFilePath_fst]
      simp [FontLoader.loadable, hfind]
    · rw [loadFromFilePath_keys]
      simp [hfind]
    · exact ⟨_, hself, fontSize_resized ft f size, hashCode_resized ft f size,
        filePath_resized ft f size⟩
    · intro hsize
      unfold FontLoader.loadFromFilePath
      simp [hfind, hsize]
    · intro q hq
      exact find_loadFromFilePath_of_ne ft self path size q hq
  · intro path size later f hne hfind
    have happ : requests ++ (path, size) :: later = (requests ++ [(path, size)]) ++ later := by
      simp
    rw [happ, afterCalls_append, find_foldl_of_ne ft path later _ hne, afterCalls_append] at hfind
    simp only [List.foldl_cons, List.foldl_nil] at hfind
    rw [find_loadFromFilePath_self] at hfind
    cases hk : (FontLoader.afterCalls ft requests).find path with
    | some k =>
      rw [hk] at hfind
      simp only [Option.some.injEq] at hfind
      rw [← hfind]
      exact fontSize_resized ft k size
    | none =>
      rw [hk] at hfind
      cases hface : ft.loadFace path size with
      | none => rw [hface] at hfind; simp at hfind
      | some face =>
        rw [hface] at hfind
        simp only [Option.map_some', Option.some.injEq] at hfind
        rw [← hfind]
        rfl

/-- A worked instance: `a.ttf` is loaded at size 12 and requested again at size 20; the
map still has one entry, whose font has size 20 and the hash it had at size 12. -/
theorem loadFromFilePath_keeps_one_font_per_path_witness :
    (FontLoader.loadFromFilePath sampleFreeType
        (FontLoader.afterCalls sampleFreeType [("a.ttf", 12)]) "a.ttf" 20).1 = some "a.ttf"
    ∧ (FontLoader.loadFromFilePath sampleFreeType
        (FontLoader.afterCalls sampleFreeType [("a.ttf", 12)]) "a.ttf" 20).2.fonts_.map Prod.fst
      = (FontLoader.afterCalls sampleFreeType [("a.ttf", 12)]).fonts_.map Prod.fst
    ∧ (∃ f2, (FontLoader.loadFromFilePath sampleFreeType
          (FontLoader.afterCalls sampleFreeType [("a.ttf", 12)]) "a.ttf" 20).2.find "a.ttf"
          = some f2
        ∧ f2.fontSize = 20
        ∧ f2.hashCode = (Font.create sampleFreeType 1 12 "a.ttf").hashCode
        ∧ f2.filePath = (Font.create sampleFreeType 1 12 "a.ttf").filePath) := by
  have h := (loadFromFilePath_keeps_one_font_per_path sampleFreeType [("a.ttf", 12)]).2.1
    "a.ttf" 20 (Font.create sampleFreeType 1 12 "a.ttf") (by decide)
  exact ⟨h.1, h.2.1, h.2.2.1⟩

/-! ## The cache of font objects of the shaper -/

/-- C11, as stated, fails: font `0` got its font object while it had pixel size 12 and
was then resized in place to 20. With the populated cache `shape` shapes with the
font object of size 12 and places the glyph at `x = 12`; after `clearCache` a new font
object is created and the glyph is at `x = 20`. -/
theorem shape_with_stale_font_object_differs :
    (TextShaper.shape (scaledEngine (fun _ => 20)) shaperAtSize12 Script.Latin (0, []) 10 1
        [65] [0] 0).1 = [⟨0, 12, 0, 7, 0⟩]
    ∧ (TextShaper.shape (scaledEngine (fun _ => 20)) shaperAtSize12.clearCache Script.Latin
        (0, []) 10 1 [65] [0] 0).1 = [⟨0, 20, 0, 7, 0⟩]
    ∧ (TextShaper.shape (scaledEngine (fun _ => 20)) shaperAtSize12 Script.Latin (0, []) 10 1
        [65] [0] 0).1
      ≠ (TextShaper.shape (scaledEngine (fun _ => 20)) shaperAtSize12.clearCache Script.Latin
        (0, []) 10 1 [65] [0] 0).1 := by
  decide

/-- C11, amended: for two shapers in whose caches every font object is the one
`hb_ft_font_create_referenced` creates for its font now (no cached font was modified
since), `shape` returns the same list for the same arguments, in particular with a
populated cache and with the cache emptied by `clearCache`; every cache reached by
`shape` and `clearCache` calls alone is of this kind. -/
theorem shape_independent_of_current_cache {F H : Type} [DecidableEq F] (E : Engine F H)
    (s1 s2 : TextShaper F H) (_script : Script) (_fonts : FontList F) (_advanceX : Int)
    (_size : Nat) (_codepoints : List Nat) (_clusters : List Int) (_clusterGap : Int)
    (h1 : cacheCurrent E s1) (h2 : cacheCurrent E s2) :
    (TextShaper.shape E s1 _script _fonts _advanceX _size _codepoints _clusters
        _clusterGap).1
      = (TextShaper.shape E s2 _script _fonts _advanceX _size _codepoints _clusters
        _clusterGap).1
    ∧ (TextShaper.shape E s1.clearCache _script _fonts _advanceX _size _codepoints _clusters
        _clusterGap).1
      = (TextShaper.shape E s1 _script _fonts _advanceX _size _codepoints _clusters
        _clusterGap).1
    ∧ ∀ calls : List (ShaperCall F), cacheCurrent E (TextShaper.afterCalls E calls) := by
  have hclear : cacheCurrent E s1.clearCache := by
    intro f c hfind
    simp [TextShaper.clearCache, TextShaper.find] at hfind
  have hctx : ∀ (a b : TextShaper F H), cacheCurrent E a → cacheCurrent E b →
      ∀ g, contextOf E a g = contextOf E b g := by
    intro a b ha hb g
    rw [contextOf_of_cacheCurrent E a ha, contextOf_of_cacheCurrent E b hb]
  exact ⟨shape_fst_congr E s1 s2 _script _fonts _advanceX _size _codepoints _clusters
      _clusterGap (hctx s1 s2 h1 h2),
    shape_fst_congr E s1.clearCache s1 _script _fonts _advanceX _size _codepoints _clusters
      _clusterGap (hctx _ _ hclear h1),
    cacheCurrent_afterCalls E⟩

/-- A worked instance: a shaper that has shaped with the fonts `1` and `2` and a new
shaper return the same list. -/
theorem shape_independent_of_current_cache_witness :
    (TextShaper.shape sampleEngine
        (TextShaper.afterCalls sampleEngine
          [ShaperCall.shape Script.Latin (1, [2, 3]) 10 1 [65] [0] 0])
        Script.Latin (1, [2, 3]) 10 1 [65] [0] 0).1
      = (TextShaper.shape sampleEngine (TextShaper.afterCalls sampleEngine [])
        Script.Latin (1, [2, 3]) 10 1 [65] [0] 0).1 :=
  (shape_independent_of_current_cache sampleEngine
    (TextShaper.afterCalls sampleEngine
      [ShaperCall.shape Script.Latin (1, [2, 3]) 10 1 [65] [0] 0])
    (TextShaper.afterCalls sampleEngine []) Script.Latin (1, [2, 3]) 10 1 [65] [0] 0
    (cacheCurrent_afterCalls sampleEngine _) (cacheCurrent_afterCalls sampleEngine _)).1

/-- C12: after every sequence of `shape` and `clearCache` calls the keys of `hb_fonts_`
are pairwise distinct. In every state, an attempt on a font `f` with a cached font
object leaves the map as it is and shapes with that object, an attempt without one
appends the entry of `f` with a newly created object, and either way every entry that
was cached is still cached with the same object; after a `shape` call the keys are the
old keys and the fonts `hb_shape` was invoked for; `clearCache` leaves the map empty. -/
theorem hb_fonts_holds_one_font_object_per_font {F H : Type} [DecidableEq F]
    (E : Engine F H) :
    (∀ calls : List (ShaperCall F),
        ((TextShaper.afterCalls E calls).hb_fonts_.map Prod.fst).Nodup)
    ∧ (∀ (s : TextShaper F H) (_size : Nat) (_codepoints : List Nat) (_clusters : List Int)
        (_clusterGap : Int) (_script : Script) (f : F) (_advanceX : Int)
        (r : GlyphPositionList F),
        (∀ h, s.find f = some h →
          (TextShaper.shapeFont E s _size _codepoints _clusters _clusterGap _script f
              _advanceX r).2.2.hb_fonts_ = s.hb_fonts_
          ∧ (TextShaper.shapeFont E s _size _codepoints _clusters _clusterGap _script f
              _advanceX r).2.1
            = (E.hb_shape h (TextShaper.fillBuffer _size _codepoints _clusters _clusterGap
                _script)).map (renderGlyph f _advanceX))
        ∧ (s.find f = none →
          (TextShaper.shapeFont E s _size _codepoints _clusters _clusterGap _script f
              _advanceX r).2.2.hb_fonts_
            = s.hb_fonts_ ++ [(f, E.hb_ft_font_create_referenced f)])
        ∧ (∀ g h, s.find g = some h →
          (TextShaper.shapeFont E s _size _codepoints _clusters _clusterGap _script f
              _advanceX r).2.2.find g = some h)
        ∧ ((s.hb_fonts_.map Prod.fst).Nodup →
          ((TextShaper.shapeFont E s _size _codepoints _clusters _clusterGap _script f
              _advanceX r).2.2.hb_fonts_.map Prod.fst).Nodup))
    ∧ (∀ (s : TextShaper F H) (_script : Script) (_fonts : FontList F) (_advanceX : Int)
        (_size : Nat) (_codepoints : List Nat) (_clusters : List Int) (_clusterGap : Int),
        ∃ attempted : List F,
          (TextShaper.shape E s _script _fonts _advanceX _size _codepoints _clusters
              _clusterGap).2.shapeCalls = s.shapeCalls ++ attempted
          ∧ (∀ g, g ∈ (TextShaper.shape E s _script _fonts _advanceX _size _codepoints
                _clusters _clusterGap).2.hb_fonts_.map Prod.fst
              ↔ g ∈ s.hb_fonts_.map Prod.fst ∨ g ∈ attempted)
          ∧ (∀ g h, s.find g = some h →
              (TextShaper.shape E s _script _fonts _advanceX _size _codepoints _clusters
                _clusterGap).2.find g = some h))
    ∧ (∀ s : TextShaper F H, s.clearCache.hb_fonts_ = []) := by
  refine ⟨nodup_keys_afterCalls E, ?_, ?_, fun _ => rfl⟩
  · intro s _size _codepoints _clusters _clusterGap _script f _advanceX r
    have hg := cacheGrows_shapeFont E s _size _codepoints _clusters _clusterGap _script f
      _advanceX r
    refine ⟨?_, ?_, hg.2.2.1, hg.2.1⟩
    · intro h hfind
      rw [shapeFont_eq]
      simp only [hfind, engineGlyphs, contextOf]
      exact ⟨trivial, trivial⟩
    · intro hfind
      rw [shapeFont_eq]
      simp only [hfind]
  · intro s _script _fonts _advanceX _size _codepoints _clusters _clusterGap
    obtain ⟨att, hg, _⟩ := cacheGrows_shape E s _script _fonts _advanceX _size _codepoints
      _clusters _clusterGap
    exact ⟨att, hg.1, hg.2.2.2, hg.2.2.1⟩

/-- A worked instance: a new shaper shapes with primary `1` and fallbacks `2`, `3`;
fonts `1` and `2` were attempted and are the keys of the map, each with its font object. -/
theorem hb_fonts_holds_one_font_object_per_font_witness :
    (TextShaper.shape sampleEngine freshShaper Script.Latin (1, [2, 3]) 10 1 [65] [0]
        0).2.hb_fonts_ = [(1, 1), (2, 2)]
    ∧ (TextShaper.shapeFont sampleEngine
        (TextShaper.shape sampleEngine freshShaper Script.Latin (1, [2, 3]) 10 1 [65] [0] 0).2
        1 [65] [0] 0 Script.Latin 2 10 []).2.2.hb_fonts_ = [(1, 1), (2, 2)] := by
  have h := ((hb_fonts_holds_one_font_object_per_font sampleEngine).2.1
    (TextShaper.shape sampleEngine freshShaper Script.Latin (1, [2, 3]) 10 1 [65] [0] 0).2
    1 [65] [0] 0 Script.Latin 2 10 []).1 2 (by decide)
  have h0 : (TextShaper.shape sampleEngine freshShaper Script.Latin (1, [2, 3]) 10 1 [65] [0]
      0).2.hb_fonts_ = [(1, 1), (2, 2)] := by decide
  exact ⟨h0, h.1.trans h0⟩

/-! ## The fonts of the returned list -/

/-- C14: all entries of the list `shape` returns reference one font `f` of
`primary :: fallbacks`; the list is the complete output of the attempt on `f`, or,
with `f` the primary font, that output after `replaceMissingGlyphs`; when every font
leaves a missing glyph, every entry references the primary font. -/
theorem shape_result_references_one_font {F H : Type} [DecidableEq F] (E : Engine F H)
    (self : TextShaper F H) (_script : Script) (primary : F) (fallbacks : List F)
    (_advanceX : Int) (_size : Nat) (_codepoints : List Nat) (_clusters : List Int)
    (_clusterGap : Int) :
    (∃ f ∈ primary :: fallbacks,
      (∀ e ∈ (TextShaper.shape E self _script (primary, fallbacks) _advanceX _size
          _codepoints _clusters _clusterGap).1, e.font = f)
      ∧ ((TextShaper.shape E self _script (primary, fallbacks) _advanceX _size _codepoints
            _clusters _clusterGap).1
          = attemptOutput E self _size _codepoints _clusters _clusterGap _script _advanceX f
        ∨ (f = primary
          ∧ (TextShaper.shape E self _script (primary, fallbacks) _advanceX _size
              _codepoints _clusters _clusterGap).1
            = TextShaper.replaceMissingGlyphs E primary
                (attemptOutput E self _size _codepoints _clusters _clusterGap _script
                  _advanceX primary))))
    ∧ ((∀ g ∈ primary :: fallbacks, ∃ e ∈ attemptOutput E self _size _codepoints _clusters
          _clusterGap _script _advanceX g, e.glyphIndex = 0) →
        ∀ e ∈ (TextShaper.shape E self _script (primary, fallbacks) _advanceX _size
          _codepoints _clusters _clusterGap).1, e.font = primary) := by
  have hshape := shape_fst_eq E self _script primary fallbacks _advanceX _size _codepoints
    _clusters _clusterGap
  have hprim : ∀ e ∈ TextShaper.replaceMissingGlyphs E primary
      (attemptOutput E self _size _codepoints _clusters _clusterGap _script _advanceX
        primary), e.font = primary :=
    replaceMissingGlyphs_font E primary _ primary
      (attemptOutput_font E self _size _codepoints _clusters _clusterGap _script _advanceX
        primary)
  constructor
  · cases hfirst : firstResolved (attemptOutput E self _size _codepoints _clusters
        _clusterGap _script _advanceX) (primary :: fallbacks) with
    | some gp =>
      rw [hfirst] at hshape
      simp only at hshape
      obtain ⟨f, hf, hgp, _⟩ := firstResolved_some _ _ _ hfirst
      refine ⟨f, hf, ?_, Or.inl (by rw [hshape, hgp])⟩
      rw [hshape, hgp]
      exact attemptOutput_font E self _size _codepoints _clusters _clusterGap _script
        _advanceX f
    | none =>
      rw [hfirst] at hshape
      simp only at hshape
      refine ⟨primary, List.mem_cons_self _ _, ?_, Or.inr ⟨rfl, hshape⟩⟩
      rw [hshape]
      exact hprim
  · intro hall
    have hnone := firstResolved_none_of_all_missing
      (attemptOutput E self _size _codepoints _clusters _clusterGap _script _advanceX)
      (primary :: fallbacks) (fun g hg => (any_glyphMissing_iff _).mpr (hall g hg))
    rw [hnone] at hshape
    simp only at hshape
    rw [hshape]
    exact hprim

/-- A worked instance: no font of `blankEngine` has a glyph; both entries of the list
returned for primary `0` and fallback `1` reference font `0`. -/
theorem shape_result_references_one_font_witness :
    ∀ e ∈ (TextShaper.shape blankEngine freshShaper Script.Common (0, [1]) 8 2
        [128512, 128513] [0, 1] 0).1, e.font = 0 :=
  (shape_result_references_one_font blankEngine freshShaper Script.Common 0 [1] 8 2
    [128512, 128513] [0, 1] 0).2 (by decide)

end text

/-! ## The FNV hash -/

theorem toUnsigned_charValue_of_lt (charIsSigned : Bool) (b : Fin 256) (h : b.val < 128) :
    toUnsigned (charValue charIsSigned b) = b.val := by
  have hb : ¬ (charIsSigned = true ∧ 128 ≤ b.val) := by
    intro hc; omega
  unfold charValue toUnsigned
  rw [if_neg hb]
  have : ((b.val : Int) % 2 ^ 32) = (b.val : Int) := by
    apply Int.emod_eq_of_lt <;> omega
  rw [this]
  simp

theorem toUnsigned_charValue_unsigned (b : Fin 256) :
    toUnsigned (charValue false b) = b.val := by
  unfold charValue toUnsigned
  simp only [Bool.false_eq_true, false_and, if_false]
  have hb := b.isLt
  have : ((b.val : Int) % 2 ^ 32) = (b.val : Int) := by
    apply Int.emod_eq_of_lt <;> omega
  rw [this]
  simp

theorem foldl_applyValue_eq (charIsSigned : Bool) (chars : List (Fin 256))
    (h : ∀ b ∈ chars, toUnsigned (charValue charIsSigned b) = b.val) (start : Nat) :
    chars.foldl (fun memory ch => FNV.new.applyValue charIsSigned memory ch) start
      = chars.foldl (fun h b => ((h ^^^ b.val) * 16777619) % 2 ^ 32) start := by
  induction chars generalizing start with
  | nil => simp only [List.foldl_nil]
  | cons c rest ih =>
    simp only [List.foldl_cons]
    have hc := h c (List.mem_cons_self _ _)
    have hprime : FNV.new.prime_ = 16777619 := by norm_num [FNV.new]
    have hstep : FNV.new.applyValue charIsSigned start c
        = ((start ^^^ c.val) * 16777619) % 2 ^ 32 := by
      unfold FNV.applyValue
      simp only [hc, hprime]
    rw [hstep]
    exact ih (fun b hb => h b (List.mem_cons_of_mem _ hb)) _

theorem applyRange_eq_fnv1a_of (charIsSigned : Bool) (chars : List (Fin 256))
    (h : ∀ b ∈ chars, toUnsigned (charValue charIsSigned b) = b.val) :
    FNV.new.applyString charIsSigned chars = fnv1a chars := by
  unfold FNV.applyString FNV.applyRange fnv1a
  have hbasis : FNV.new.basis_ = 2166136261 := by norm_num [FNV.new]
  rw [hbasis]
  exact foldl_applyValue_eq charIsSigned chars h _

/-- Where plain `char` is unsigned the string hash is FNV-1a for every string. -/
theorem applyString_eq_fnv1a_unsigned (chars : List (Fin 256)) :
    FNV.new.applyString false chars = fnv1a chars :=
  applyRange_eq_fnv1a_of false chars (fun b _ => toUnsigned_charValue_unsigned b)

/-- On 7-bit strings the string hash is FNV-1a whatever the signedness of `char`. -/
theorem applyString_eq_fnv1a_ascii (charIsSigned : Bool) (chars : List (Fin 256))
    (h : ∀ b ∈ chars, b.val < 128) :
    FNV.new.applyString charIsSigned chars = fnv1a chars :=
  applyRange_eq_fnv1a_of charIsSigned chars
    (fun b hb => toUnsigned_charValue_of_lt charIsSigned b (h b hb))

/-- C10: where plain `char` is signed, `FNV<char>()(s)` is not the FNV-1a hash of the
bytes of `s`: for the one-byte string `"\xE9"` the character is sign-extended to
`0xFFFFFFE9` before the xor, and the result is 3958606660, whereas FNV-1a of the octet
`0xE9` is 1812687940. The empty string hashes to the offset basis. -/
theorem applyString_signed_char_differs_from_fnv1a :
    FNV.new.applyString true [0xE9] = 3958606660
    ∧ fnv1a [0xE9] = 1812687940
    ∧ FNV.new.applyString true [0xE9] ≠ fnv1a [0xE9]
    ∧ FNV.new.applyString true [] = 2166136261 := by
  set_option maxRecDepth 100000 in decide

/-! ## Hashes of character sequences -/

theorem all_range_getD_eq_iff {α β γ : Type} [DecidableEq γ] [Inhabited α] [Inhabited β]
    (f : α → γ) (g : β → γ) (a : List α) (b : List β) (hlen : a.length = b.length) :
    (List.range a.length).all (fun i => f (a.getD i default) == g (b.getD i default)) = true
      ↔ a.map f = b.map g := by
  simp only [List.all_eq_true, List.mem_range, beq_iff_eq]
  constructor
  · intro hall
    apply List.ext_getElem (by simp [hlen])
    intro i h1 h2
    simp only [List.length_map] at h1 h2
    have := hall i h1
    simpa [List.getD_eq_getElem?_getD, List.getElem?_eq_getElem h1,
      List.getElem?_eq_getElem h2] using this
  · intro hmap i hi
    have hi2 : i < b.length := by omega
    have h := congrArg (fun l => l[i]?) hmap
    simpa [List.getD_eq_getElem?_getD, List.getElem?_eq_getElem hi,
      List.getElem?_eq_getElem hi2] using h

theorem codepointSequenceEq_iff (a b : CodepointSequence) :
    codepointSequenceEq a b = true ↔ a.map Codepoint.value = b.map Codepoint.value := by
  unfold codepointSequenceEq
  by_cases hlen : a.length = b.length
  · simp only [hlen, ne_eq, not_true_eq_false, if_false]
    rw [← hlen]
    exact all_range_getD_eq_iff Codepoint.value Codepoint.value a b hlen
  · simp only [hlen, ne_eq, not_false_eq_true, if_true, Bool.false_eq_true, false_iff]
    intro hmap
    exact hlen (by simpa using congrArg List.length hmap)

theorem charSequenceEq_iff (s : CharSequence) (c : CodepointSequence) :
    charSequenceEq s c = true ↔ s = c.map Codepoint.value := by
  unfold charSequenceEq
  by_cases hlen : s.length = c.length
  · simp only [hlen, ne_eq, not_true_eq_false, if_false]
    rw [← hlen]
    have h := all_range_getD_eq_iff (fun n : Nat => n) Codepoint.value s c hlen
    simpa using h
  · simp only [hlen, ne_eq, not_false_eq_true, if_true, Bool.false_eq_true, false_iff]
    intro hmap
    exact hlen (by simpa using congrArg List.length hmap)

theorem hash_CodepointSequence_eq (c : CodepointSequence) :
    hash_CodepointSequence c = hash_CharSequence (c.map Codepoint.value) := by
  unfold hash_CodepointSequence hash_CharSequence
  cases c with
  | nil => simp only [List.isEmpty_nil, Bool.not_true, Bool.false_eq_true, if_false, List.map_nil]
  | cons x rest =>
    simp only [List.map_cons, List.isEmpty_cons, Bool.not_false, if_true, List.foldl_cons,
      List.foldl_map]

/-- C13: the hashes of the two sequence types agree with the equality operators: two
`CodepointSequence`s that compare equal (the same length and pointwise equal values,
whatever the clusters) have the same hash, a `CharSequence` and a `CodepointSequence`
that compare equal have the same hash, and both hashes are `0` on the empty sequence. -/
theorem sequence_hashes_respect_equality :
    (∀ a b : CodepointSequence,
        (codepointSequenceEq a b = true ↔ a.map Codepoint.value = b.map Codepoint.value)
        ∧ (codepointSequenceEq a b = true →
            hash_CodepointSequence a = hash_CodepointSequence b))
    ∧ (∀ (s : CharSequence) (c : CodepointSequence),
        (charSequenceEq s c = true → hash_CharSequence s = hash_CodepointSequence c)
        ∧ (codepointCharSequenceEq c s = true →
            hash_CodepointSequence c = hash_CharSequence s))
    ∧ hash_CharSequence [] = 0
    ∧ hash_CodepointSequence [] = 0 := by
  refine ⟨?_, ?_, ?_, ?_⟩
  · intro a b
    refine ⟨codepointSequenceEq_iff a b, ?_⟩
    intro h
    rw [hash_CodepointSequence_eq a, hash_CodepointSequence_eq b,
      (codepointSequenceEq_iff a b).mp h]
  · intro s c
    constructor
    · intro h
      rw [hash_CodepointSequence_eq c, (charSequenceEq_iff s c).mp h]
    · intro h
      rw [hash_CodepointSequence_eq c, (charSequenceEq_iff s c).mp h]
  · simp only [hash_CharSequence, List.isEmpty_nil, Bool.not_true, Bool.false_eq_true, if_false]
  · simp only [hash_CodepointSequence, List.isEmpty_nil, Bool.not_true, Bool.false_eq_true,
      if_false]

/-- A worked instance: `A`, `B` at clusters `0, 1` and at clusters `5, 5` compare equal
and hash alike, as does the `CharSequence` `A`, `B`. -/
theorem sequence_hashes_respect_equality_witness :
    hash_CodepointSequence [⟨65, 0⟩, ⟨66, 1⟩] = hash_CodepointSequence [⟨65, 5⟩, ⟨66, 5⟩]
    ∧ hash_CharSequence [65, 66] = hash_CodepointSequence [⟨65, 0⟩, ⟨66, 1⟩] :=
  ⟨(sequence_hashes_respect_equality.1 [⟨65, 0⟩, ⟨66, 1⟩] [⟨65, 5⟩, ⟨66, 5⟩]).2 (by decide),
   (sequence_hashes_respect_equality.2.1 [65, 66] [⟨65, 0⟩, ⟨66, 1⟩]).1 (by decide)⟩

end crispy
